import Mathlib

/-!
The catbase madlib plugin

A shallow embedding of `plugins/madlib/madlib.go`.

* Go strings are sequences of Unicode code points (`String`, with the list of
  its characters as the working representation); invalid UTF-8 is not modelled.
* `strings.ToLower` maps the ASCII letters only. The general theorems are stated in
  terms of the lower-cased body and use no property of the case mapping; the
  concrete examples are ASCII.
* The two SQL tables are lists of rows in insertion order. Their columns are declared
  `string`, which gives them NUMERIC affinity in SQLite: a text that is an integer
  literal is stored, compared and read back as an integer (`007` as `7`), any text that
  is no number literal is kept as it is. A text that SQLite may convert to a REAL
  (floating point) is outside the model: a statement that gets one ends the run with
  `Result.real`, and no theorem says what the program does in such a run.
* Every database statement may fail; which one fails, and which rows the random
  sampling query returns, is given by an explicit `Oracle` argument.
* Log output is not modelled.
-/

namespace Madlib

/-! ## Package `strings` and `regexp` -/

/-- The opening brace. -/
def lbrace : Char := Char.ofNat 123

/-- The closing brace. -/
def rbrace : Char := Char.ofNat 125

/-- Go `unicode.IsSpace`: the white space code points that `strings.Fields` splits on. -/
def isSpace (c : Char) : Bool :=
  let n := c.toNat
  (9 ≤ n && n ≤ 13) || n == 32 || n == 0x85 || n == 0xA0 || n == 0x1680 ||
  (0x2000 ≤ n && n ≤ 0x200a) || n == 0x2028 || n == 0x2029 || n == 0x202f ||
  n == 0x205f || n == 0x3000

/-- Go `unicode.ToLower` on the ASCII letters; other code points are left as they are. -/
def toLowerRune (c : Char) : Char :=
  if 65 ≤ c.toNat ∧ c.toNat ≤ 90 then Char.ofNat (c.toNat + 32) else c

/-- Go `strings.ToLower`. -/
def ToLower (s : String) : String := ⟨s.data.map toLowerRune⟩

/-- Go `strings.HasPrefix`. -/
def HasPrefix (s pre : String) : Bool := pre.data.isPrefixOf s.data

/-- Go `strings.TrimPrefix`. -/
def TrimPrefix (s pre : String) : String :=
  if pre.data.isPrefixOf s.data then ⟨s.data.drop pre.data.length⟩ else s

/-- Worker of `Fields`: `cur` is the current word, reversed. -/
def fieldsGo : List Char → List Char → List String
  | cur, [] => if cur.isEmpty then [] else [⟨cur.reverse⟩]
  | cur, c :: s =>
    if isSpace c then
      if cur.isEmpty then fieldsGo [] s else ⟨cur.reverse⟩ :: fieldsGo [] s
    else fieldsGo (c :: cur) s

/-- Go `strings.Fields`: the maximal runs of non-space characters. -/
def Fields (s : String) : List String := fieldsGo [] s.data

/-- Go `strings.Join`. -/
def Join (xs : List String) (sep : String) : String :=
  ⟨List.intercalate sep.data (xs.map String.data)⟩

/-- Worker of `Replace` for a non-empty `old`: `skip` characters of a match that was
just replaced remain to be dropped. -/
def replaceGo (old new : List Char) : Nat → List Char → List Char
  | _, [] => []
  | skip + 1, _ :: s => replaceGo old new skip s
  | 0, c :: s =>
    if old.isPrefixOf (c :: s) then new ++ replaceGo old new (old.length - 1) s
    else c :: replaceGo old new 0 s

/-- Go `strings.Replace(s, old, new, -1)` on character lists: every non-overlapping
occurrence of `old`, leftmost first, is replaced by `new`; an empty `old` matches
before every character and at the end. -/
def replaceAll (old new s : List Char) : List Char :=
  if old.isEmpty then new ++ s.flatMap (fun c => c :: new) else replaceGo old new 0 s

/-- Go `strings.Replace(s, old, new, -1)`. -/
def Replace (s old new : String) : String := ⟨replaceAll old.data new.data s.data⟩

/-- Worker of `placeholders`: `skip` characters of the last match remain to be dropped. -/
def placeholdersGo : Nat → List Char → List (List Char)
  | _, [] => []
  | skip + 1, _ :: s => placeholdersGo skip s
  | 0, c :: s =>
    if c = lbrace then
      let tok := s.takeWhile (fun x => x != rbrace)
      if !tok.isEmpty && (s.dropWhile (fun x => x != rbrace)).head? == some rbrace then
        tok :: placeholdersGo (tok.length + 1) s
      else placeholdersGo 0 s
    else placeholdersGo 0 s

/-- The first capture group of every match of
`regexp.MustCompile("{([^}]+)}").FindAllStringSubmatch(format, -1)`:
the leftmost non-overlapping matches of an opening brace, one or more characters
other than the closing brace, and a closing brace. -/
def placeholders (format : String) : List String :=
  (placeholdersGo 0 format.data).map String.mk

/-- The characters of a placeholder token: an opening brace, the field name, a closing brace. -/
def tok (f : List Char) : List Char := lbrace :: (f ++ [rbrace])

/-- The placeholder token of a field name: the Go expression `"\x7b" + f + "\x7d"`. -/
def token (f : String) : String := ⟨tok f.data⟩

/-! ## The database: values and NUMERIC affinity -/

/-- A value of a column declared `string`: an INTEGER or a TEXT. -/
inductive SqlValue where
  | int (i : Int)
  | text (s : String)
deriving DecidableEq, Repr

/-- An ASCII digit. -/
def isDigit (c : Char) : Bool := 48 ≤ c.toNat && c.toNat ≤ 57

/-- The white space of SQLite (`sqlite3Isspace`): the blank and the characters 9 to 13. -/
def isSqlSpace (c : Char) : Bool := c.toNat == 32 || (9 ≤ c.toNat && c.toNat ≤ 13)

/-- The characters a number literal is made of: digits, signs, the dot, the exponent
letter. -/
def numericChar (c : Char) : Bool :=
  isDigit c || c.toNat == 43 || c.toNat == 45 || c.toNat == 46 || c.toNat == 101 ||
    c.toNat == 69

/-- The text without the white space SQLite skips at both ends of a number. -/
def trimSql (s : List Char) : List Char :=
  ((s.dropWhile isSqlSpace).reverse.dropWhile isSqlSpace).reverse

/-- The number written by a list of digits, most significant first, continuing from
`init`. -/
def digitsFrom (init : Nat) (ds : List Char) : Nat :=
  ds.foldl (fun n c => 10 * n + (c.toNat - 48)) init

/-- The integer an integer literal stands for: an optional sign and one or more digits. -/
def intLiteral (t : List Char) : Option Int :=
  match t with
  | [] => none
  | c :: ds =>
    if c.toNat = 45 then
      if !ds.isEmpty && ds.all isDigit then some (-(digitsFrom 0 ds : Int)) else none
    else if c.toNat = 43 then
      if !ds.isEmpty && ds.all isDigit then some (digitsFrom 0 ds : Int) else none
    else if (c :: ds).all isDigit then some (digitsFrom 0 (c :: ds) : Int) else none

/-- NUMERIC affinity applied to a text, on insertion into a column declared `string`
and on comparison with such a column. A text with a character that no number literal
has, or without a digit, stays TEXT. An integer literal in the 64-bit range, white space
around it skipped, becomes that INTEGER. Every other text made of the characters of
number literals only may be a REAL literal: `none`, not modelled. -/
def affinity (s : String) : Option SqlValue :=
  let t := trimSql s.data
  if t.any isDigit && t.all numericChar then
    match intLiteral t with
    | some i =>
      if -9223372036854775808 ≤ i ∧ i ≤ 9223372036854775807 then some (.int i) else none
    | none => none
  else some (.text s)

/-- Worker of `showNat`: the digits of `n` in front of `acc`. -/
def showNatGo : Nat → Nat → List Char → List Char
  | 0, _, acc => acc
  | fuel + 1, n, acc =>
    if n / 10 = 0 then Char.ofNat (48 + n % 10) :: acc
    else showNatGo fuel (n / 10) (Char.ofNat (48 + n % 10) :: acc)

/-- The decimal digits of a natural number. -/
def showNat (n : Nat) : List Char := showNatGo (n + 1) n []

/-- Go `strconv.FormatInt(i, 10)`. -/
def showInt (i : Int) : String :=
  if i < 0 then ⟨Char.ofNat 45 :: showNat i.natAbs⟩ else ⟨showNat i.natAbs⟩

/-- The Go string a stored value is scanned into: the decimal form of an INTEGER, the
text of a TEXT. -/
def SqlValue.str : SqlValue → String
  | .int i => showInt i
  | .text s => s

/-! ## Data model -/

/-- Go `sql.NullInt64`. -/
structure NullInt64 where
  Int64 : Int
  Valid : Bool
deriving DecidableEq, Repr

/-- Go `field`: a row of table `madlib_fields` scanned into Go. -/
structure field where
  Id : NullInt64
  Field : String
  Value : String
deriving DecidableEq, Repr

/-- Go `mad`: a row of table `madlib` scanned into Go. -/
structure mad where
  Id : NullInt64
  Name : String
  Format : String
deriving DecidableEq, Repr

/-- A row of table `madlib_fields (id integer primary key, field string, value string)`. -/
structure FieldRow where
  id : Int
  field : SqlValue
  value : SqlValue
deriving DecidableEq, Repr

/-- A row of table `madlib (id integer primary key, name string, format string)`. -/
structure MadRow where
  id : Int
  name : SqlValue
  format : SqlValue
deriving DecidableEq, Repr

/-- The row as `SELECT *` scans it into a Go `field`; the primary key is never NULL. -/
def FieldRow.scan (r : FieldRow) : Madlib.field := ⟨⟨r.id, true⟩, r.field.str, r.value.str⟩

/-- The row as `SELECT *` scans it into a Go `mad`; the primary key is never NULL. -/
def MadRow.scan (r : MadRow) : mad := ⟨⟨r.id, true⟩, r.name.str, r.format.str⟩

/-- The database created by `New`: the two tables, rows in insertion order. Neither
table has a constraint besides the primary key. -/
structure DB where
  madlib : List MadRow
  madlib_fields : List FieldRow
deriving DecidableEq, Repr

/-- The database right after `New` ran on a fresh backend. -/
def DB.empty : DB := ⟨[], []⟩

/-- The row id SQLite gives to an inserted row: one more than the largest id in use. -/
def nextId (ids : List Int) : Int := ids.foldl max 0 + 1

/-- The result of a store operation: the Go result, a Go error, or a statement that
got a text outside the model (a REAL). -/
inductive Ret (α : Type) where
  | ok (a : α)
  | err (e : String)
  | real
deriving DecidableEq, Repr

/-- What the backend does during one call of `Message`, besides what the tables determine. -/
structure Oracle where
  /-- The error, if any, of the SELECT of the `getMadlib` call in `Message`. -/
  lookup : Option String
  /-- The error, if any, of the statement of the subcommand: the INSERT of `newMad`,
  the DELETE of `delMad` or `removeField`, the INSERT of `addField`, the SELECT of `listMad`. -/
  stmt : Option String
  /-- The error, if any, of the SELECT of the `getMadlib` call in `newMad`. -/
  relookup : Option String
  /-- The outcome of the random sampling SELECT of `mad.String`: an error or the rows. -/
  sample : Except String (List FieldRow)

/-- The backend that never fails and whose sampling query returns `rows`. -/
def Oracle.ok (rows : List FieldRow) : Oracle := ⟨none, none, none, .ok rows⟩

/-- The possible results of the sampling query
`select * from (select * from madlib_fields where field in (fs) order by random(*)) group by field`
with the names `fs` as parameters: every name is inside the model, and the rows are one
row of the table for every distinct field value that a name compares equal to and that
has a row, in any order. -/
def IsSample (tbl : List FieldRow) (fs : List String) (rows : List FieldRow) : Prop :=
  (∀ f ∈ fs, (affinity f).isSome = true) ∧
  (rows.map (fun r => r.field)).Nodup ∧
  (∀ r ∈ rows, r ∈ tbl ∧ some r.field ∈ fs.map affinity) ∧
  (∀ r ∈ tbl, some r.field ∈ fs.map affinity → r.field ∈ rows.map (fun r => r.field))

instance (tbl : List FieldRow) (fs : List String) (rows : List FieldRow) :
    Decidable (IsSample tbl fs rows) := by
  unfold IsSample; infer_instance

/-! ## Store operations -/

/-- Go `Madlib.removeField`: the database after
`DELETE FROM madlib_fields WHERE field=? AND value=?`. -/
def removeField (err : Option String) (db : DB) (fld value : String) : Ret DB :=
  match err with
  | some e => .err e
  | none =>
    match affinity fld, affinity value with
    | some f, some v =>
      .ok { db with madlib_fields :=
        db.madlib_fields.filter (fun r => !(r.field == f && r.value == v)) }
    | _, _ => .real

/-- Go `Madlib.addField`: the database after
`INSERT INTO madlib_fields (field, value) VALUES (?, ?)`. -/
def addField (err : Option String) (db : DB) (fld value : String) : Ret DB :=
  match err with
  | some e => .err e
  | none =>
    match affinity fld, affinity value with
    | some f, some v =>
      .ok { db with madlib_fields :=
        db.madlib_fields ++ [⟨nextId (db.madlib_fields.map (fun r => r.id)), f, v⟩] }
    | _, _ => .real

/-- Go `Madlib.getMadlib`: `SELECT * FROM madlib WHERE name=? LIMIT 1`; the pointer is
nil (`none`) when no row matches. -/
def getMadlib (err : Option String) (db : DB) (name : String) : Ret (Option mad) :=
  match err with
  | some e => .err e
  | none =>
    match affinity name with
    | some k => .ok ((db.madlib.find? (fun r => r.name == k)).map MadRow.scan)
    | none => .real

/-- Go `Madlib.newMad`: the result and the database afterwards. -/
def newMad (err reErr : Option String) (db : DB) (name format : String) :
    Ret (Option mad) × DB :=
  match err with
  | some e => (.err e, db)
  | none =>
    match affinity name, affinity format with
    | some n, some f =>
      let db1 : DB := { db with madlib :=
        db.madlib ++ [⟨nextId (db.madlib.map (fun r => r.id)), n, f⟩] }
      (getMadlib reErr db1 name, db1)
    | _, _ => (.real, db)

/-- Go `Madlib.delMad`: the database after `DELETE FROM madlib WHERE name=?`. -/
def delMad (err : Option String) (db : DB) (name : String) : Ret DB :=
  match err with
  | some e => .err e
  | none =>
    match affinity name with
    | some k => .ok { db with madlib := db.madlib.filter (fun r => !(r.name == k)) }
    | none => .real

/-- Go `Madlib.listMad`: `SELECT name FROM madlib`. -/
def listMad (err : Option String) (db : DB) : Ret (List String) :=
  match err with
  | some e => .err e
  | none => .ok (db.madlib.map (fun r => r.name.str))

/-- The library call `sqlx.In(sql, fs)`: it expands the single bindvar of the query to
one bindvar per element of `fs`, and returns an error for an empty slice. -/
def sqlxIn (fs : List String) : Except String (List String) :=
  if fs.isEmpty then .error "empty slice passed to 'in' query" else .ok fs

/-- The substitution loop of `mad.String` (lines 142 to 146): one global replacement
per returned row, in the order of the rows. -/
def substitute (fields : List field) (format : String) : String :=
  fields.foldl (fun out f => Replace out (token f.Field) f.Value) format

/-- Worker of `simultaneous`: `skip` characters of a replaced token remain to be dropped. -/
def simulGo (rows : List field) : Nat → List Char → List Char
  | _, [] => []
  | skip + 1, _ :: s => simulGo rows skip s
  | 0, c :: s =>
    match rows.find? (fun r => (tok r.Field.data).isPrefixOf (c :: s)) with
    | some r => r.Value.data ++ simulGo rows (r.Field.data.length + 1) s
    | none => c :: simulGo rows 0 s

/-- The simultaneous replacement the behaviour is compared with: one pass over the
format, left to right, in which every occurrence of the token of a row is replaced by
the value of that row, and replaced text is not looked at again. -/
def simultaneous (rows : List field) (format : String) : String :=
  ⟨simulGo rows 0 format.data⟩

/-- A brace character. -/
def isBrace (c : Char) : Bool := c == lbrace || c == rbrace

/-- No nested braces: the next brace after an opening brace, if any, is a closing one. -/
def noNest : List Char → Bool
  | [] => true
  | c :: s => (c != lbrace || s.find? isBrace != some lbrace) && noNest s

/-- Go `mad.String`, given the outcome `sel` of its sampling query. -/
def mad.String (m : mad) (sel : Except String (List FieldRow)) : String :=
  let fs := placeholders m.Format
  match sqlxIn fs with
  | .error err => "error: " ++ err
  | .ok _ =>
    match sel with
    | .error err => "error: " ++ err
    | .ok rows => substitute (rows.map FieldRow.scan) m.Format

/-- The text sent by `Madlib.Help`. -/
def helpText : String :=
  "Address me and use the command madlib with the following:\n" ++
  "\t`create <madlib name> <format>` - make a new madlib\n" ++
  "\t`delete <madlib name>` - remove a madlib\n" ++
  "\t`add <field> <value>` - add a format field value\n" ++
  "\t`remove <field> <value>` - remove a format field value\n" ++
  "\t`list` - list all current madlibs\n" ++
  "Format is a string with a field represented as `\x7bfield\x7d`"

/-- Go `msg.Message`, the parts the plugin reads. -/
structure Msg where
  Body : String
  Channel : String
  Command : Bool
deriving DecidableEq, Repr

/-- What one call of `Message` did: its return value, the `SendMessage` calls
(channel, text) in order, and the database afterwards. -/
structure Outcome where
  handled : Bool
  sent : List (String × String)
  db : DB
deriving DecidableEq, Repr

/-- How a call of `Message` ends: it returns, or it dereferences the nil template that
`newMad` returned without an error, or a statement got a text outside the model. -/
inductive Result where
  | done (out : Outcome)
  | nilDeref
  | real
deriving DecidableEq, Repr

/-- The command switch of `Message` (lines 172 to 217), after the lookup of the body
found no template. -/
def dispatch (o : Oracle) (db : DB) (ch : String) (ms : List String) : Result :=
  if ms.head? = some "create" ∧ 3 ≤ ms.length then
    match newMad o.stmt o.relookup db (ms.getD 1 "") (Join (ms.drop 2) " ") with
    | (.err _, db1) => .done ⟨true, [(ch, "Something went horribly wrong.")], db1⟩
    | (.ok (some m), db1) => .done ⟨true, [(ch, m.String o.sample)], db1⟩
    | (.ok none, _) => .nilDeref
    | (.real, _) => .real
  else if ms.head? = some "delete" ∧ ms.length = 2 then
    match delMad o.stmt db (ms.getD 1 "") with
    | .err _ => .done ⟨true, [(ch, "Something went horribly wrong.")], db⟩
    | .ok db1 => .done ⟨true, [(ch, "Deleted.")], db1⟩
    | .real => .real
  else if ms.head? = some "add" ∧ 3 ≤ ms.length then
    -- the result of addField is dropped; `err` is still the nil error of getMadlib
    match addField o.stmt db (ms.getD 1 "") (Join (ms.drop 2) " ") with
    | .err _ => .done ⟨true, [(ch, "Added.")], db⟩
    | .ok db1 => .done ⟨true, [(ch, "Added.")], db1⟩
    | .real => .real
  else if ms.head? = some "remove" ∧ ms.length = 3 then
    -- the result of removeField is dropped; `err` is still the nil error of getMadlib
    match removeField o.stmt db (ms.getD 1 "") (Join (ms.drop 2) " ") with
    | .err _ => .done ⟨true, [(ch, "Removed.")], db⟩
    | .ok db1 => .done ⟨true, [(ch, "Removed.")], db1⟩
    | .real => .real
  else if ms.head? = some "list" ∧ ms.length = 1 then
    match listMad o.stmt db with
    | .err _ => .done ⟨true, [(ch, "Something went horribly wrong.")], db⟩
    | .ok list => .done ⟨true, [(ch, Join list ", ")], db⟩
    | .real => .real
  else .done ⟨true, [(ch, helpText)], db⟩

/-- The part of `Message` after the template lookup (from line 163): the test for an
addressed `madlib` command and the command switch. -/
def command (o : Oracle) (db : DB) (message : Msg) (m : String) : Result :=
  let ms := Fields (TrimPrefix m "madlib")
  let cmd := message.Command
  if !cmd || ms.length == 0 || !HasPrefix m "madlib" then .done ⟨false, [], db⟩
  else dispatch o db message.Channel ms

/-- Go `Madlib.Message`. -/
def Message (o : Oracle) (db : DB) (message : Msg) : Result :=
  let m := ToLower message.Body
  let ch := message.Channel
  match getMadlib o.lookup db m with
  | .err _ => .done ⟨true, [(ch, "There was a problem.")], db⟩
  | .ok (some lib) =>
    if lib.Id.Valid then .done ⟨true, [(ch, lib.String o.sample)], db⟩
    else command o db message m
  | .ok none => command o db message m
  | .real => .real

/-- The malformed commands: a known subcommand with a wrong number of arguments, or an
unknown subcommand. -/
def malformed (sub : String) (args : List String) : Prop :=
  (sub = "create" ∧ args.length < 2) ∨ (sub = "add" ∧ args.length < 2) ∨
  (sub = "delete" ∧ args.length ≠ 1) ∨ (sub = "remove" ∧ args.length ≠ 2) ∨
  (sub = "list" ∧ args ≠ []) ∨
  (sub ≠ "create" ∧ sub ≠ "delete" ∧ sub ≠ "add" ∧ sub ≠ "remove" ∧ sub ≠ "list")

instance (sub : String) (args : List String) : Decidable (malformed sub args) := by
  unfold malformed; infer_instance

/-- Go `strings.TrimSpace`, which `Message` does not call: the trimming the passive
trigger is compared with. -/
def TrimSpace (s : String) : String :=
  ⟨((s.data.dropWhile isSpace).reverse.dropWhile isSpace).reverse⟩

/-! ## Lemmas on `Replace` -/

theorem lbrace_ne_rbrace : lbrace ≠ rbrace := by decide

theorem replaceGo_skip (old new : List Char) :
    ∀ (u s : List Char), replaceGo old new u.length (u ++ s) = replaceGo old new 0 s := by
  intro u
  induction u with
  | nil => intro s; rfl
  | cons c u ih => intro s; simpa [replaceGo] using ih s

theorem replaceGo_match (old new : List Char) (h : old ≠ []) (t : List Char) :
    replaceGo old new 0 (old ++ t) = new ++ replaceGo old new 0 t := by
  cases old with
  | nil => exact absurd rfl h
  | cons c o =>
    have hp : (c :: o).isPrefixOf (c :: (o ++ t)) = true := by
      rw [List.isPrefixOf_iff_prefix]; exact List.prefix_append (c :: o) t
    show replaceGo (c :: o) new 0 (c :: (o ++ t)) = _
    rw [replaceGo, if_pos hp]
    simp only [List.length_cons, Nat.add_sub_cancel]
    rw [replaceGo_skip]

theorem replaceGo_step (old new : List Char) (c : Char) (s : List Char)
    (h : ¬ old <+: c :: s) :
    replaceGo old new 0 (c :: s) = c :: replaceGo old new 0 s := by
  have hp : ¬ (old.isPrefixOf (c :: s) = true) := by
    rw [List.isPrefixOf_iff_prefix]; exact h
  rw [replaceGo, if_neg hp]

theorem replaceGo_nil (old new : List Char) : replaceGo old new 0 [] = [] := rfl

theorem tok_ne_nil (f : List Char) : tok f ≠ [] := by simp [tok]

theorem replaceAll_tok (f new s : List Char) :
    replaceAll (tok f) new s = replaceGo (tok f) new 0 s := by
  simp [replaceAll, tok]

theorem not_tok_prefix_of_ne (f : List Char) (c : Char) (s : List Char) (h : c ≠ lbrace) :
    ¬ tok f <+: c :: s := by
  intro hp
  obtain ⟨t, ht⟩ := hp
  simp only [tok, List.cons_append, List.cons.injEq] at ht
  exact h ht.1.symm

/-- A stretch without opening brace is copied by the replacement of a token. -/
theorem replaceGo_free (f new : List Char) :
    ∀ (u w : List Char), (∀ x ∈ u, x ≠ lbrace) →
      replaceGo (tok f) new 0 (u ++ w) = u ++ replaceGo (tok f) new 0 w := by
  intro u
  induction u with
  | nil => intro w _; rfl
  | cons c u ih =>
    intro w h
    have hc : c ≠ lbrace := h c (List.mem_cons_self _ _)
    have hu : ∀ x ∈ u, x ≠ lbrace := fun x hx => h x (List.mem_cons_of_mem _ hx)
    show replaceGo (tok f) new 0 (c :: (u ++ w)) = c :: (u ++ _)
    rw [replaceGo_step _ _ _ _ (not_tok_prefix_of_ne f c _ hc), ih w hu]

/-- Two names without closing brace whose tokens start at the same place are equal. -/
theorem name_eq_of_prefix :
    ∀ (f u t : List Char), rbrace ∉ f → rbrace ∉ u →
      f ++ [rbrace] <+: u ++ rbrace :: t → f = u := by
  intro f
  induction f with
  | nil =>
    intro u t _ hu hp
    cases u with
    | nil => rfl
    | cons b u =>
      obtain ⟨z, hz⟩ := hp
      simp only [List.nil_append, List.cons_append, List.cons.injEq] at hz
      exact absurd (hz.1 ▸ List.mem_cons_self _ _) hu
  | cons a f ih =>
    intro u t hf hu hp
    cases u with
    | nil =>
      obtain ⟨z, hz⟩ := hp
      simp only [List.nil_append, List.cons_append, List.cons.injEq] at hz
      exact absurd (hz.1 ▸ List.mem_cons_self _ _) hf
    | cons b u =>
      obtain ⟨z, hz⟩ := hp
      simp only [List.cons_append, List.cons.injEq] at hz
      have hf1 : rbrace ∉ f := fun h => hf (List.mem_cons_of_mem _ h)
      have hu1 : rbrace ∉ u := fun h => hu (List.mem_cons_of_mem _ h)
      rw [hz.1, ih u t hf1 hu1 ⟨z, hz.2⟩]

theorem tok_prefix_iff (f u t : List Char) (hf : rbrace ∉ f) (hu : rbrace ∉ u) :
    tok f <+: lbrace :: (u ++ rbrace :: t) ↔ f = u := by
  constructor
  · intro hp
    obtain ⟨z, hz⟩ := hp
    simp only [tok, List.cons_append, List.cons.injEq, true_and] at hz
    exact name_eq_of_prefix f u t hf hu ⟨z, hz⟩
  · intro h
    subst h
    exact ⟨t, by simp [tok]⟩

theorem tok_append (f t : List Char) : tok f ++ t = lbrace :: (f ++ rbrace :: t) := by
  simp [tok]

/-- An occurrence of one token cannot overlap the occurrence of another one. -/
theorem tok_infix_after (X : List Char) :
    ∀ (Z t : List Char), lbrace ∉ Z → tok X <:+: Z ++ rbrace :: t → tok X <:+: t := by
  intro Z
  induction Z with
  | nil =>
    intro t _ h
    rcases List.infix_cons_iff.mp h with hp | hi
    · exact absurd hp (not_tok_prefix_of_ne X rbrace t (Ne.symm lbrace_ne_rbrace))
    · exact hi
  | cons z Z ih =>
    intro t hZ h
    have hz : z ≠ lbrace := fun e => hZ (e ▸ List.mem_cons_self _ _)
    rcases List.infix_cons_iff.mp h with hp | hi
    · exact absurd hp (not_tok_prefix_of_ne X z _ hz)
    · exact ih t (fun h1 => hZ (List.mem_cons_of_mem _ h1)) hi

/-- Replacing the token of `Z` keeps an occurrence of the token of another name `X`. -/
theorem tok_infix_replaceGo (X Z v : List Char) (hX : lbrace ∉ X) (hXr : rbrace ∉ X)
    (hZ : lbrace ∉ Z) (hZr : rbrace ∉ Z) (hne : X ≠ Z) :
    ∀ (n : Nat) (s : List Char), s.length ≤ n → tok X <:+: s →
      tok X <:+: replaceGo (tok Z) v 0 s := by
  intro n
  induction n with
  | zero =>
    intro s hs hi
    have : s = [] := List.length_eq_zero.mp (Nat.le_zero.mp hs)
    subst this
    have := List.infix_nil.mp hi
    exact absurd this (tok_ne_nil X)
  | succ n ih =>
    intro s hs hi
    cases s with
    | nil => exact absurd (List.infix_nil.mp hi) (tok_ne_nil X)
    | cons c t =>
      by_cases hp : tok Z <+: c :: t
      · obtain ⟨r, hr⟩ := hp
        rw [← hr, replaceGo_match _ _ (tok_ne_nil Z)]
        have hi1 : tok X <:+: lbrace :: (Z ++ rbrace :: r) := by
          rw [← tok_append, hr]; exact hi
        have hi2 : tok X <:+: r := by
          rcases List.infix_cons_iff.mp hi1 with h1 | h1
          · exact absurd ((tok_prefix_iff X Z r hXr hZr).mp h1) hne
          · exact tok_infix_after X Z r hZ h1
        have hlen : r.length ≤ n := by
          have := congrArg List.length hr
          simp [tok] at this
          simp at hs
          omega
        exact List.IsInfix.trans (ih r hlen hi2) (List.suffix_append _ _).isInfix
      · rw [replaceGo_step _ _ _ _ hp]
        rcases List.infix_cons_iff.mp hi with h1 | h1
        · obtain ⟨post, hpost⟩ := h1
          rw [tok_append] at hpost
          simp only [List.cons.injEq] at hpost
          obtain ⟨hc, ht⟩ := hpost
          subst ht
          rw [replaceGo_free Z v X _ (fun x hx e => hX (e ▸ hx)),
            replaceGo_step _ _ _ _ (not_tok_prefix_of_ne Z rbrace _ (Ne.symm lbrace_ne_rbrace))]
          rw [← hc]
          exact ⟨[], replaceGo (tok Z) v 0 post, by simp [tok]⟩
        · have hlen : t.length ≤ n := by simp at hs; omega
          exact List.IsInfix.trans (ih t hlen h1) (List.suffix_cons _ _).isInfix

/-! ## Lemmas on `placeholders` -/

theorem placeholdersGo_skip :
    ∀ (u s : List Char), placeholdersGo u.length (u ++ s) = placeholdersGo 0 s := by
  intro u
  induction u with
  | nil => intro s; rfl
  | cons c u ih => intro s; simpa [placeholdersGo] using ih s

theorem dropWhile_head_rbrace (s t : List Char)
    (h : (s.dropWhile (fun x => x != rbrace)).head? = some rbrace)
    (ht : t = (s.dropWhile (fun x => x != rbrace)).tail) :
    s = s.takeWhile (fun x => x != rbrace) ++ rbrace :: t := by
  have h1 := (List.takeWhile_append_dropWhile (fun x => x != rbrace) s).symm
  cases hd : s.dropWhile (fun x => x != rbrace) with
  | nil => rw [hd] at h; simp at h
  | cons y ys =>
    rw [hd] at h ht
    simp only [List.head?_cons, Option.some.injEq] at h
    simp only [List.tail_cons] at ht
    rw [hd, h, ← ht] at h1
    exact h1

theorem rbrace_not_mem_takeWhile (s : List Char) :
    rbrace ∉ s.takeWhile (fun x => x != rbrace) := by
  intro h
  have := List.mem_takeWhile_imp h
  simp at this

/-- Every placeholder name is non-empty, has no closing brace, and its token occurs
in the format. -/
theorem placeholdersGo_spec (p : List Char) :
    ∀ (s : List Char) (k : Nat), p ∈ placeholdersGo k s →
      p ≠ [] ∧ rbrace ∉ p ∧ tok p <:+: s := by
  intro s
  induction s with
  | nil => intro k h; cases k <;> simp [placeholdersGo] at h
  | cons c s ih =>
    intro k h
    cases k with
    | succ k =>
      simp only [placeholdersGo] at h
      obtain ⟨h1, h2, h3⟩ := ih k h
      exact ⟨h1, h2, List.IsInfix.trans h3 (List.suffix_cons _ _).isInfix⟩
    | zero =>
      simp only [placeholdersGo] at h
      split_ifs at h with hc hm
      · rcases List.mem_cons.mp h with h0 | h0
        · simp only [Bool.and_eq_true, Bool.not_eq_true', beq_iff_eq] at hm
          obtain ⟨hne, hhead⟩ := hm
          have hs := dropWhile_head_rbrace s _ hhead rfl
          refine ⟨?_, ?_, ?_⟩
          · rw [h0]; intro e; rw [e] at hne; simp at hne
          · rw [h0]; exact rbrace_not_mem_takeWhile s
          · rw [h0, hc]
            refine ⟨[], (s.dropWhile (fun x => x != rbrace)).tail, ?_⟩
            rw [List.nil_append, tok_append, ← hs]
        · obtain ⟨h1, h2, h3⟩ := ih _ h0
          exact ⟨h1, h2, List.IsInfix.trans h3 (List.suffix_cons _ _).isInfix⟩
      · obtain ⟨h1, h2, h3⟩ := ih _ h
        exact ⟨h1, h2, List.IsInfix.trans h3 (List.suffix_cons _ _).isInfix⟩
      · obtain ⟨h1, h2, h3⟩ := ih _ h
        exact ⟨h1, h2, List.IsInfix.trans h3 (List.suffix_cons _ _).isInfix⟩

theorem placeholders_spec (format p : String) (h : p ∈ placeholders format) :
    p.data ≠ [] ∧ rbrace ∉ p.data ∧ (token p).data <:+: format.data := by
  simp only [placeholders, List.mem_map] at h
  obtain ⟨q, hq, rfl⟩ := h
  exact placeholdersGo_spec q format.data 0 hq

/-- A stretch without opening brace holds no placeholder. -/
theorem placeholdersGo_free :
    ∀ (u w : List Char), (∀ x ∈ u, x ≠ lbrace) →
      placeholdersGo 0 (u ++ w) = placeholdersGo 0 w := by
  intro u
  induction u with
  | nil => intro w _; rfl
  | cons c u ih =>
    intro w h
    have hc : c ≠ lbrace := h c (List.mem_cons_self _ _)
    show placeholdersGo 0 (c :: (u ++ w)) = _
    rw [placeholdersGo, if_neg hc]
    exact ih w (fun x hx => h x (List.mem_cons_of_mem _ hx))

theorem takeWhile_name (x w : List Char) (hx : rbrace ∉ x) :
    (x ++ rbrace :: w).takeWhile (fun y => y != rbrace) = x := by
  induction x with
  | nil => simp
  | cons a x ih =>
    have ha : a ≠ rbrace := fun e => hx (e ▸ List.mem_cons_self _ _)
    simp only [List.cons_append]
    rw [List.takeWhile_cons_of_pos (by simpa using ha),
      ih (fun h => hx (List.mem_cons_of_mem _ h))]

theorem dropWhile_name (x w : List Char) (hx : rbrace ∉ x) :
    (x ++ rbrace :: w).dropWhile (fun y => y != rbrace) = rbrace :: w := by
  induction x with
  | nil => simp
  | cons a x ih =>
    have ha : a ≠ rbrace := fun e => hx (e ▸ List.mem_cons_self _ _)
    simp only [List.cons_append]
    rw [List.dropWhile_cons_of_pos (by simpa using ha),
      ih (fun h => hx (List.mem_cons_of_mem _ h))]

/-- A token at the head of the format is the first match of the regular expression. -/
theorem placeholdersGo_tok (x w : List Char) (hne : x ≠ []) (hx : rbrace ∉ x) :
    placeholdersGo 0 (tok x ++ w) = x :: placeholdersGo 0 w := by
  rw [tok_append, placeholdersGo, if_pos rfl]
  simp only [takeWhile_name x w hx, dropWhile_name x w hx]
  have h1 : (!x.isEmpty && (rbrace :: w).head? == some rbrace) = true := by
    cases x with
    | nil => exact absurd rfl hne
    | cons a x => simp
  rw [if_pos h1]
  have h2 : placeholdersGo (x.length + 1) (x ++ rbrace :: w) = placeholdersGo 0 w := by
    have := placeholdersGo_skip (x ++ [rbrace]) w
    simpa using this
  rw [h2]

/-! ## Rendering -/

theorem substitute_cons (r : field) (rs : List field) (out : String) :
    substitute (r :: rs) out = substitute rs (Replace out (token r.Field) r.Value) := rfl

theorem Replace_token_data (out f v : String) :
    (Replace out (token f) v).data = replaceGo (tok f.data) v.data 0 out.data := by
  show replaceAll (tok f.data) v.data out.data = _
  exact replaceAll_tok _ _ _

/-! ## The substitution loop and the simultaneous replacement -/

theorem simulGo_skip (rows : List field) :
    ∀ (u s : List Char), simulGo rows u.length (u ++ s) = simulGo rows 0 s := by
  intro u
  induction u with
  | nil => intro s; rfl
  | cons c u ih => intro s; simpa [simulGo] using ih s

theorem simulGo_none (rows : List field) (c : Char) (s : List Char)
    (h : rows.find? (fun r => (tok r.Field.data).isPrefixOf (c :: s)) = none) :
    simulGo rows 0 (c :: s) = c :: simulGo rows 0 s := by
  rw [simulGo, h]

theorem simulGo_some (rows : List field) (c : Char) (s : List Char) (r : field)
    (h : rows.find? (fun r => (tok r.Field.data).isPrefixOf (c :: s)) = some r) :
    ∃ t, c :: s = tok r.Field.data ++ t ∧
      simulGo rows 0 (c :: s) = r.Value.data ++ simulGo rows 0 t := by
  have hp : tok r.Field.data <+: c :: s := by
    have := List.find?_some h
    exact List.isPrefixOf_iff_prefix.mp this
  obtain ⟨t, ht⟩ := hp
  refine ⟨t, ht.symm, ?_⟩
  rw [simulGo, h]
  simp only
  have hs : s = (r.Field.data ++ [rbrace]) ++ t := by
    rw [tok_append] at ht
    simp only [List.cons.injEq] at ht
    rw [← ht.2]; simp
  have := simulGo_skip rows (r.Field.data ++ [rbrace]) t
  rw [List.length_append, List.length_singleton] at this
  rw [hs, this]

theorem simulGo_ne (rows : List field) (c : Char) (s : List Char) (hc : c ≠ lbrace) :
    simulGo rows 0 (c :: s) = c :: simulGo rows 0 s := by
  apply simulGo_none
  rw [List.find?_eq_none]
  intro r _ hp
  exact not_tok_prefix_of_ne _ c s hc (List.isPrefixOf_iff_prefix.mp hp)

theorem simulGo_free (rows : List field) :
    ∀ (u w : List Char), (∀ x ∈ u, x ≠ lbrace) →
      simulGo rows 0 (u ++ w) = u ++ simulGo rows 0 w := by
  intro u
  induction u with
  | nil => intro w _; rfl
  | cons c u ih =>
    intro w h
    show simulGo rows 0 (c :: (u ++ w)) = c :: (u ++ _)
    rw [simulGo_ne rows c _ (h c (List.mem_cons_self _ _)),
      ih w (fun x hx => h x (List.mem_cons_of_mem _ hx))]

theorem noNest_tail (c : Char) (s : List Char) (h : noNest (c :: s) = true) :
    noNest s = true := by
  simp only [noNest, Bool.and_eq_true] at h
  exact h.2

theorem noNest_suffix : ∀ (u t : List Char), noNest (u ++ t) = true → noNest t = true := by
  intro u
  induction u with
  | nil => intro t h; exact h
  | cons c u ih => intro t h; exact ih t (noNest_tail c _ h)

theorem isBrace_false_iff (c : Char) : isBrace c = false ↔ c ≠ lbrace ∧ c ≠ rbrace := by
  simp [isBrace]

/-- A text is brace-free, or it is a brace-free stretch followed by its first brace. -/
theorem split_brace : ∀ (s : List Char),
    (∀ x ∈ s, isBrace x = false) ∨
    ∃ u b t, s = u ++ b :: t ∧ (∀ x ∈ u, isBrace x = false) ∧ isBrace b = true ∧
      s.find? isBrace = some b := by
  intro s
  induction s with
  | nil => left; simp
  | cons c s ih =>
    by_cases hc : isBrace c = true
    · right
      exact ⟨[], c, s, rfl, by simp, hc, List.find?_cons_of_pos _ hc⟩
    · have hc1 : isBrace c = false := by simpa using hc
      rcases ih with h | ⟨u, b, t, hs, hu, hb, hf⟩
      · left
        intro x hx
        rcases List.mem_cons.mp hx with e | e
        · rw [e]; exact hc1
        · exact h x e
      · right
        refine ⟨c :: u, b, t, by rw [hs]; rfl, ?_, hb, ?_⟩
        · intro x hx
          rcases List.mem_cons.mp hx with e | e
          · rw [e]; exact hc1
          · exact hu x e
        · rw [List.find?_cons_of_neg _ hc, hf]

/-- After an opening brace without nesting, the text is brace-free or a brace-free
stretch followed by a closing brace. -/
theorem noNest_after_lbrace (t : List Char) (h : noNest (lbrace :: t) = true) :
    (∀ x ∈ t, isBrace x = false) ∨
    ∃ u r, t = u ++ rbrace :: r ∧ (∀ x ∈ u, isBrace x = false) := by
  rcases split_brace t with h1 | ⟨u, b, r, hs, hu, hb, hf⟩
  · exact Or.inl h1
  · right
    simp only [noNest, bne_self_eq_false, Bool.false_or, Bool.and_eq_true, bne_iff_ne, ne_eq] at h
    have hb1 : b ≠ lbrace := by
      intro e
      rw [hf, e] at h
      exact h.1 rfl
    have hb2 : b = rbrace := by
      simp only [isBrace, Bool.or_eq_true, beq_iff_eq] at hb
      rcases hb with e | e
      · exact absurd e hb1
      · exact e
    exact ⟨u, r, by rw [hs, hb2], hu⟩

theorem simulGo_nil (rows : List field) : simulGo rows 0 [] = [] := rfl

/-- Without nesting, a token that starts the text after the earlier rows were replaced
started the text before. -/
theorem tok_prefix_of_simul (rs : List field) (f t : List Char) (hfr : rbrace ∉ f)
    (hn : noNest (lbrace :: t) = true) (hp : tok f <+: lbrace :: simulGo rs 0 t) :
    tok f <+: lbrace :: t := by
  rcases noNest_after_lbrace t hn with h | ⟨u, r, ht, hu⟩
  · have h1 : simulGo rs 0 t = t := by
      have := simulGo_free rs t [] (fun x hx => ((isBrace_false_iff x).mp (h x hx)).1)
      rw [List.append_nil, simulGo_nil, List.append_nil] at this
      exact this
    rwa [h1] at hp
  · have hu1 : ∀ x ∈ u, x ≠ lbrace := fun x hx => ((isBrace_false_iff x).mp (hu x hx)).1
    have hur : rbrace ∉ u := fun hx => ((isBrace_false_iff _).mp (hu _ hx)).2 rfl
    rw [ht, simulGo_free rs u _ hu1, simulGo_ne rs rbrace _ (Ne.symm lbrace_ne_rbrace)] at hp
    have := (tok_prefix_iff f u _ hfr hur).mp hp
    rw [ht]
    exact (tok_prefix_iff f u r hfr hur).mpr this

/-- Replacing the token of one more row in the simultaneous replacement of the earlier
rows is the simultaneous replacement of all of them. -/
theorem replace_simul (rs : List field) (r : field)
    (hv : ∀ g ∈ rs, ∀ x ∈ g.Value.data, x ≠ lbrace)
    (hfl : lbrace ∉ r.Field.data) (hfr : rbrace ∉ r.Field.data) :
    ∀ (n : Nat) (s : List Char), s.length ≤ n → noNest s = true →
      replaceGo (tok r.Field.data) r.Value.data 0 (simulGo rs 0 s) =
        simulGo (rs ++ [r]) 0 s := by
  intro n
  induction n with
  | zero =>
    intro s hs _
    have := List.length_eq_zero.mp (Nat.le_zero.mp hs)
    subst this
    rfl
  | succ n ih =>
    intro s hs hn
    cases s with
    | nil => rfl
    | cons c t =>
      cases hh : rs.find? (fun g => (tok g.Field.data).isPrefixOf (c :: t)) with
      | some g =>
        obtain ⟨t1, ht1, hsim⟩ := simulGo_some rs c t g hh
        have hh2 : (rs ++ [r]).find? (fun g => (tok g.Field.data).isPrefixOf (c :: t)) =
            some g := by
          rw [List.find?_append, hh]; rfl
        obtain ⟨t2, ht2, hsim2⟩ := simulGo_some (rs ++ [r]) c t g hh2
        have e : t2 = t1 := List.append_cancel_left (ht2.symm.trans ht1)
        subst e
        rw [hsim, hsim2, replaceGo_free _ _ _ _ (hv g (List.mem_of_find?_eq_some hh))]
        congr 1
        apply ih
        · have := congrArg List.length ht2
          simp [tok] at this
          simp at hs
          omega
        · exact noNest_suffix (tok g.Field.data) t2 (ht2 ▸ hn)
      | none =>
        rw [simulGo_none rs c t hh]
        by_cases hp : tok r.Field.data <+: c :: t
        · have hh2 : (rs ++ [r]).find? (fun g => (tok g.Field.data).isPrefixOf (c :: t)) =
              some r := by
            rw [List.find?_append, hh, Option.none_or]
            exact List.find?_cons_of_pos _ (List.isPrefixOf_iff_prefix.mpr hp)
          obtain ⟨t2, ht2, hsim2⟩ := simulGo_some (rs ++ [r]) c t r hh2
          rw [hsim2]
          rw [tok_append] at ht2
          simp only [List.cons.injEq] at ht2
          obtain ⟨hc, ht⟩ := ht2
          subst hc
          subst ht
          rw [simulGo_free rs _ _ (fun x hx e => hfl (e ▸ hx)),
            simulGo_ne rs rbrace _ (Ne.symm lbrace_ne_rbrace), ← tok_append,
            replaceGo_match _ _ (tok_ne_nil _)]
          congr 1
          apply ih
          · simp at hs ⊢
            omega
          · have := noNest_suffix (tok r.Field.data) t2
            rw [tok_append] at this
            exact this hn
        · have hh2 : (rs ++ [r]).find? (fun g => (tok g.Field.data).isPrefixOf (c :: t)) =
              none := by
            rw [List.find?_append, hh, Option.none_or, List.find?_eq_none]
            intro g hg h
            rw [List.mem_singleton.mp hg] at h
            exact hp (List.isPrefixOf_iff_prefix.mp h)
          rw [simulGo_none (rs ++ [r]) c t hh2]
          have hnp : ¬ tok r.Field.data <+: c :: simulGo rs 0 t := by
            by_cases hc : c = lbrace
            · subst hc
              exact fun h => hp (tok_prefix_of_simul rs _ t hfr hn h)
            · exact not_tok_prefix_of_ne _ c _ hc
          rw [replaceGo_step _ _ _ _ hnp]
          congr 1
          apply ih
          · simp at hs; omega
          · exact noNest_tail c t hn

theorem simulGo_no_rows : ∀ (s : List Char), simulGo [] 0 s = s := by
  intro s
  induction s with
  | nil => rfl
  | cons c s ih => rw [simulGo_none [] c s rfl, ih]

/-- On a format without nested braces, the substitution loop over rows with brace-free
names and values computes the simultaneous replacement. -/
theorem substitute_eq_simultaneous (format : String) (hn : noNest format.data = true) :
    ∀ (rows : List field),
      (∀ r ∈ rows, (∀ c ∈ r.Field.data, isBrace c = false) ∧
        (∀ c ∈ r.Value.data, isBrace c = false)) →
      substitute rows format = simultaneous rows format := by
  intro rows
  induction rows using List.reverseRecOn with
  | nil =>
    intro _
    apply String.ext
    exact (simulGo_no_rows format.data).symm
  | append_singleton rs r ih =>
    intro h
    have hrs : ∀ g ∈ rs, (∀ c ∈ g.Field.data, isBrace c = false) ∧
        (∀ c ∈ g.Value.data, isBrace c = false) :=
      fun g hg => h g (List.mem_append_left _ hg)
    obtain ⟨hrf, _⟩ := h r (List.mem_append_right _ (List.mem_singleton_self _))
    have e1 : substitute (rs ++ [r]) format =
        Replace (substitute rs format) (token r.Field) r.Value := by
      unfold substitute
      rw [List.foldl_append]
      rfl
    apply String.ext
    rw [e1, Replace_token_data, ih hrs]
    exact replace_simul rs r
      (fun g hg x hx => ((isBrace_false_iff x).mp ((hrs g hg).2 x hx)).1)
      (fun hx => ((isBrace_false_iff _).mp (hrf _ hx)).1 rfl)
      (fun hx => ((isBrace_false_iff _).mp (hrf _ hx)).2 rfl) _ _ (Nat.le_refl _) hn

theorem find?_perm_unique {α : Type} (p : α → Bool) (l1 l2 : List α) (hperm : l1.Perm l2)
    (huniq : ∀ a ∈ l1, ∀ b ∈ l1, p a = true → p b = true → a = b) :
    l1.find? p = l2.find? p := by
  cases h1 : l1.find? p with
  | none =>
    symm
    rw [List.find?_eq_none] at h1 ⊢
    intro x hx
    exact h1 x (hperm.mem_iff.mpr hx)
  | some a =>
    cases h2 : l2.find? p with
    | none =>
      have := List.find?_eq_none.mp h2 a (hperm.mem_iff.mp (List.mem_of_find?_eq_some h1))
      exact absurd (List.find?_some h1) this
    | some b =>
      congr
      exact huniq a (List.mem_of_find?_eq_some h1) b
        (hperm.mem_iff.mpr (List.mem_of_find?_eq_some h2)) (List.find?_some h1)
        (List.find?_some h2)

theorem tok_prefix_unique (f g l : List Char) (hf : rbrace ∉ f) (hg : rbrace ∉ g)
    (h1 : tok f <+: l) (h2 : tok g <+: l) : f = g := by
  obtain ⟨t, ht⟩ := h2
  rw [← ht, tok_append] at h1
  exact (tok_prefix_iff f g t hf hg).mp h1

/-- The simultaneous replacement does not depend on the order of the rows. -/
theorem simulGo_perm (rows rows2 : List field) (hperm : rows.Perm rows2)
    (hnd : (rows.map (fun r => r.Field)).Nodup)
    (hr : ∀ r ∈ rows, rbrace ∉ r.Field.data) :
    ∀ (s : List Char) (k : Nat), simulGo rows k s = simulGo rows2 k s := by
  intro s
  induction s with
  | nil => intro k; cases k <;> rfl
  | cons c s ih =>
    intro k
    cases k with
    | succ k => simp only [simulGo]; exact ih k
    | zero =>
      have hfind := find?_perm_unique (fun r : field => (tok r.Field.data).isPrefixOf (c :: s))
        rows rows2 hperm (by
          intro a ha b hb pa pb
          have e := tok_prefix_unique _ _ _ (hr a ha) (hr b hb)
            (List.isPrefixOf_iff_prefix.mp pa) (List.isPrefixOf_iff_prefix.mp pb)
          exact List.inj_on_of_nodup_map hnd ha hb (String.ext e))
      simp only [simulGo]
      rw [hfind]
      cases rows2.find? (fun r : field => (tok r.Field.data).isPrefixOf (c :: s)) with
      | none => simp only; rw [ih 0]
      | some g => simp only; rw [ih _]

/-! ## Lemmas on NUMERIC affinity -/

/-- A text that stays a TEXT is stored as it is. -/
theorem affinity_text (p s : String) (h : affinity p = some (.text s)) : s = p := by
  unfold affinity at h
  simp only at h
  split_ifs at h with h1
  · split at h
    · split_ifs at h
      exact absurd h (by simp)
    · exact absurd h (by simp)
  · simp only [Option.some.injEq, SqlValue.text.injEq] at h
    exact h.symm

theorem affinity_int_range (p : String) (i : Int) (h : affinity p = some (.int i)) :
    -9223372036854775808 ≤ i ∧ i ≤ 9223372036854775807 := by
  unfold affinity at h
  simp only at h
  split_ifs at h with h1
  · split at h
    · split_ifs at h with h2
      simp only [Option.some.injEq, SqlValue.int.injEq] at h
      rw [← h]; exact h2
    · exact absurd h (by simp)
  · exact absurd h (by simp)

theorem mem_dropWhile {p : Char → Bool} (c : Char) :
    ∀ (l : List Char), c ∈ l → p c = false → c ∈ l.dropWhile p := by
  intro l
  induction l with
  | nil => intro h _; exact h
  | cons a l ih =>
    intro h hc
    by_cases ha : p a = true
    · rw [List.dropWhile_cons_of_pos ha]
      rcases List.mem_cons.mp h with e | e
      · rw [e, ha] at hc; exact absurd hc (by simp)
      · exact ih e hc
    · rw [List.dropWhile_cons_of_neg ha]
      exact h

theorem mem_trimSql (c : Char) (l : List Char) (h : c ∈ l) (hc : isSqlSpace c = false) :
    c ∈ trimSql l := by
  unfold trimSql
  rw [List.mem_reverse]
  apply mem_dropWhile c _ _ hc
  rw [List.mem_reverse]
  exact mem_dropWhile c l h hc

/-- A text with a character that is no white space and occurs in no number literal
stays a TEXT. -/
theorem affinity_of_mem (s : String) (c : Char) (h : c ∈ s.data)
    (hn : numericChar c = false) (hs : isSqlSpace c = false) :
    affinity s = some (.text s) := by
  unfold affinity
  simp only
  have hall : (trimSql s.data).all numericChar = false := by
    rw [List.all_eq_false]
    exact ⟨c, mem_trimSql c _ h hs, by simp [hn]⟩
  rw [hall, Bool.and_false]
  simp

theorem digit_ofNat : ∀ d, d < 10 →
    isDigit (Char.ofNat (48 + d)) = true ∧ (Char.ofNat (48 + d)).toNat - 48 = d := by
  decide

theorem digitsFrom_cons (init : Nat) (c : Char) (ds : List Char) :
    digitsFrom init (c :: ds) = digitsFrom (10 * init + (c.toNat - 48)) ds := rfl

/-- The digits written for a number are digits, they write that number, and there is
at least one. -/
theorem showNatGo_spec : ∀ (fuel n : Nat) (acc : List Char), n < fuel →
    (∀ c ∈ acc, isDigit c = true) →
    (∀ c ∈ showNatGo fuel n acc, isDigit c = true) ∧
    digitsFrom 0 (showNatGo fuel n acc) = digitsFrom n acc ∧
    showNatGo fuel n acc ≠ [] := by
  intro fuel
  induction fuel with
  | zero => intro n acc h; exact absurd h (Nat.not_lt_zero n)
  | succ fuel ih =>
    intro n acc hn hacc
    have hd := digit_ofNat (n % 10) (Nat.mod_lt n (by decide))
    have hacc1 : ∀ c ∈ Char.ofNat (48 + n % 10) :: acc, isDigit c = true := by
      intro c hc
      rcases List.mem_cons.mp hc with e | e
      · rw [e]; exact hd.1
      · exact hacc c e
    simp only [showNatGo]
    split_ifs with h
    · refine ⟨hacc1, ?_, by simp⟩
      rw [digitsFrom_cons, hd.2]
      have : n % 10 = n := Nat.mod_eq_of_lt (by omega)
      rw [this]; simp
    · have hlt : n / 10 < fuel := by omega
      obtain ⟨h1, h2, h3⟩ := ih (n / 10) _ hlt hacc1
      refine ⟨h1, ?_, h3⟩
      rw [h2, digitsFrom_cons, hd.2]
      have : 10 * (n / 10) + n % 10 = n := Nat.div_add_mod n 10
      rw [this]

theorem showNat_spec (n : Nat) :
    (∀ c ∈ showNat n, isDigit c = true) ∧ digitsFrom 0 (showNat n) = n ∧ showNat n ≠ [] := by
  have := showNatGo_spec (n + 1) n [] (Nat.lt_succ_self n) (by simp)
  exact ⟨this.1, by rw [showNat, this.2.1]; rfl, this.2.2⟩

theorem isDigit_facts (c : Char) (h : isDigit c = true) :
    isSqlSpace c = false ∧ numericChar c = true ∧ c.toNat ≠ 45 ∧ c.toNat ≠ 43 ∧
      c ≠ lbrace ∧ c ≠ rbrace := by
  simp only [isDigit, Bool.and_eq_true, decide_eq_true_eq] at h
  refine ⟨?_, ?_, ?_, ?_, ?_, ?_⟩
  · simp only [isSqlSpace, Bool.or_eq_false_iff, beq_eq_false_iff_ne, ne_eq,
      Bool.and_eq_false_imp, decide_eq_true_eq, decide_eq_false_iff_not]
    omega
  · simp [numericChar, isDigit, h]
  · omega
  · omega
  · intro e; rw [e] at h; revert h; decide
  · intro e; rw [e] at h; revert h; decide

theorem dropWhile_eq_self {p : Char → Bool} (l : List Char) (h : ∀ c ∈ l, p c = false) :
    l.dropWhile p = l := by
  cases l with
  | nil => rfl
  | cons a l =>
    exact List.dropWhile_cons_of_neg (by simp [h a (List.mem_cons_self _ _)])

theorem trimSql_eq_self (l : List Char) (h : ∀ c ∈ l, isSqlSpace c = false) :
    trimSql l = l := by
  unfold trimSql
  rw [dropWhile_eq_self l h, dropWhile_eq_self l.reverse (fun c hc => h c (List.mem_reverse.mp hc)),
    List.reverse_reverse]

theorem affinity_of_intLiteral (s : String) (i : Int)
    (ht : trimSql s.data = s.data) (hany : s.data.any isDigit = true)
    (hall : s.data.all numericChar = true) (hlit : intLiteral s.data = some i)
    (hr : -9223372036854775808 ≤ i ∧ i ≤ 9223372036854775807) :
    affinity s = some (.int i) := by
  unfold affinity
  simp only [ht, hany, hall, hlit, Bool.and_self, if_true, if_pos hr]

/-- The decimal form of an integer of the 64-bit range is stored as that integer. -/
theorem affinity_showInt (i : Int)
    (hr : -9223372036854775808 ≤ i ∧ i ≤ 9223372036854775807) :
    affinity (showInt i) = some (.int i) := by
  obtain ⟨hdig, hval, hne⟩ := showNat_spec i.natAbs
  obtain ⟨c, ds, hcd⟩ := List.exists_cons_of_ne_nil hne
  have hc : isDigit c = true := hdig c (hcd ▸ List.mem_cons_self _ _)
  by_cases hneg : i < 0
  · have hshow : showInt i = ⟨Char.ofNat 45 :: showNat i.natAbs⟩ := by
      unfold showInt; rw [if_pos hneg]
    rw [hshow]
    apply affinity_of_intLiteral
    · apply trimSql_eq_self
      intro x hx
      rcases List.mem_cons.mp hx with e | e
      · rw [e]; decide
      · exact (isDigit_facts x (hdig x e)).1
    · show (Char.ofNat 45 :: showNat i.natAbs).any isDigit = true
      rw [List.any_eq_true]
      exact ⟨c, List.mem_cons_of_mem _ (hcd ▸ List.mem_cons_self _ _), hc⟩
    · show (Char.ofNat 45 :: showNat i.natAbs).all numericChar = true
      rw [List.all_eq_true]
      intro x hx
      rcases List.mem_cons.mp hx with e | e
      · rw [e]; decide
      · exact (isDigit_facts x (hdig x e)).2.1
    · show intLiteral (Char.ofNat 45 :: showNat i.natAbs) = some i
      have hall : (showNat i.natAbs).all isDigit = true := List.all_eq_true.mpr hdig
      have hemp : (showNat i.natAbs).isEmpty = false := by
        rw [hcd]; rfl
      have h45 : (Char.ofNat 45).toNat = 45 := by decide
      simp only [intLiteral, h45, if_true, hall, hemp, Bool.not_false, Bool.and_self, hval]
      congr 1
      omega
    · exact hr
  · have hshow : showInt i = ⟨showNat i.natAbs⟩ := by
      unfold showInt; rw [if_neg hneg]
    rw [hshow]
    apply affinity_of_intLiteral
    · exact trimSql_eq_self _ (fun x hx => (isDigit_facts x (hdig x hx)).1)
    · show (showNat i.natAbs).any isDigit = true
      rw [List.any_eq_true]
      exact ⟨c, hcd ▸ List.mem_cons_self _ _, hc⟩
    · show (showNat i.natAbs).all numericChar = true
      rw [List.all_eq_true]
      exact fun x hx => (isDigit_facts x (hdig x hx)).2.1
    · show intLiteral (showNat i.natAbs) = some i
      have hall : (c :: ds).all isDigit = true := by
        rw [← hcd]; exact List.all_eq_true.mpr hdig
      have hv : digitsFrom 0 (c :: ds) = i.natAbs := by rw [← hcd]; exact hval
      rw [hcd]
      simp only [intLiteral, (isDigit_facts c hc).2.2.1, (isDigit_facts c hc).2.2.2.1,
        if_false, hall, if_true, hv]
      congr 1
      omega
    · exact hr

/-- The decimal form of an integer has no brace. -/
theorem showInt_no_brace (i : Int) :
    lbrace ∉ (showInt i).data ∧ rbrace ∉ (showInt i).data := by
  obtain ⟨hdig, _, _⟩ := showNat_spec i.natAbs
  have key : ∀ x ∈ (showInt i).data, x ≠ lbrace ∧ x ≠ rbrace := by
    intro x hx
    unfold showInt at hx
    split_ifs at hx
    · rcases List.mem_cons.mp hx with e | e
      · rw [e]; decide
      · exact ⟨(isDigit_facts x (hdig x e)).2.2.2.2.1, (isDigit_facts x (hdig x e)).2.2.2.2.2⟩
    · exact ⟨(isDigit_facts x (hdig x hx)).2.2.2.2.1, (isDigit_facts x (hdig x hx)).2.2.2.2.2⟩
  exact ⟨fun h => (key _ h).1 rfl, fun h => (key _ h).2 rfl⟩

theorem mad_String_ok (m : mad) (rows : List FieldRow) (h : placeholders m.Format ≠ []) :
    m.String (.ok rows) = substitute (rows.map FieldRow.scan) m.Format := by
  unfold mad.String sqlxIn
  cases hp : placeholders m.Format with
  | nil => exact absurd hp h
  | cons q qs => simp

theorem mad_String_no_placeholder (m : mad) (sel : Except String (List FieldRow))
    (h : placeholders m.Format = []) :
    m.String sel = "error: empty slice passed to 'in' query" := by
  unfold mad.String sqlxIn
  rw [h]
  rfl

/-- The substitution loop keeps the token of a name that no row resolves. -/
theorem tok_infix_substitute (X : String) (hX : lbrace ∉ X.data) (hXr : rbrace ∉ X.data) :
    ∀ (rows : List field) (out : String),
      (∀ r ∈ rows, lbrace ∉ r.Field.data ∧ rbrace ∉ r.Field.data ∧ r.Field ≠ X) →
      (token X).data <:+: out.data → (token X).data <:+: (substitute rows out).data := by
  intro rows
  induction rows with
  | nil => intro out _ h; exact h
  | cons r rs ih =>
    intro out hr h
    rw [substitute_cons]
    apply ih _ (fun q hq => hr q (List.mem_cons_of_mem _ hq))
    rw [Replace_token_data]
    obtain ⟨h1, h2, h3⟩ := hr r (List.mem_cons_self _ _)
    have hne : X.data ≠ r.Field.data := fun e => h3 (String.ext e.symm)
    exact tok_infix_replaceGo X.data r.Field.data r.Value.data hX hXr h1 h2 hne _ _
      (Nat.le_refl _) h

theorem mem_keys (fs : List String) (v : SqlValue) (h : some v ∈ fs.map affinity) :
    ∃ p ∈ fs, affinity p = some v := by
  obtain ⟨p, hp, e⟩ := List.mem_map.mp h
  exact ⟨p, hp, e⟩

/-- When every requested name is `x`, stored as `k`, and `k` has a row, the sample is
one row of `k`. -/
theorem sample_single (tbl rows : List FieldRow) (fs : List String) (x : String)
    (k : SqlValue) (hfs : ∀ f ∈ fs, f = x) (hx : x ∈ fs) (hk : affinity x = some k)
    (hpool : ∃ r ∈ tbl, r.field = k) (hs : IsSample tbl fs rows) :
    ∃ r, rows = [r] ∧ r ∈ tbl ∧ r.field = k := by
  obtain ⟨_, hnd, hin, hcov⟩ := hs
  obtain ⟨r0, hr0, hr0k⟩ := hpool
  have hkey : some r0.field ∈ fs.map affinity :=
    List.mem_map.mpr ⟨x, hx, by rw [hk, hr0k]⟩
  have hmem := hcov r0 hr0 hkey
  have hall : ∀ r ∈ rows, r.field = k := by
    intro r hr
    obtain ⟨p, hp, e⟩ := mem_keys fs _ (hin r hr).2
    rw [hfs p hp, hk] at e
    exact (Option.some.inj e).symm
  cases rows with
  | nil => simp at hmem
  | cons r rs =>
    cases rs with
    | nil => exact ⟨r, rfl, (hin r (List.mem_cons_self _ _)).1, hall r (List.mem_cons_self _ _)⟩
    | cons r2 rs2 =>
      exfalso
      have e1 := hall r (List.mem_cons_self _ _)
      have e2 := hall r2 (List.mem_cons_of_mem _ (List.mem_cons_self _ _))
      simp [e1, e2] at hnd

/-- A sample from a table of one row whose field is requested is that row. -/
theorem sample_of_singleton (r0 : FieldRow) (fs : List String) (rows : List FieldRow)
    (h0 : some r0.field ∈ fs.map affinity) (hs : IsSample [r0] fs rows) : rows = [r0] := by
  obtain ⟨_, hnd, hin, hcov⟩ := hs
  have hmem := hcov r0 (List.mem_singleton_self _) h0
  have hall : ∀ r ∈ rows, r = r0 := fun r hr => List.mem_singleton.mp (hin r hr).1
  cases rows with
  | nil => simp at hmem
  | cons r rs =>
    cases rs with
    | nil => rw [hall r (List.mem_cons_self _ _)]
    | cons r2 rs2 =>
      exfalso
      have e1 := hall r (List.mem_cons_self _ _)
      have e2 := hall r2 (List.mem_cons_of_mem _ (List.mem_cons_self _ _))
      simp [e1, e2] at hnd

theorem not_lbrace_of_isBrace (a : List Char) (h : ∀ ch ∈ a, isBrace ch = false) :
    ∀ x ∈ a, x ≠ lbrace := by
  intro x hx e
  have := h x hx
  rw [e] at this
  simp [isBrace] at this

/-- The placeholders of a format with two occurrences of one token between brace-free
stretches. -/
theorem placeholdersGo_shape (a b c x : List Char) (ha : ∀ y ∈ a, y ≠ lbrace)
    (hb : ∀ y ∈ b, y ≠ lbrace) (hc : ∀ y ∈ c, y ≠ lbrace) (hne : x ≠ []) (hx : rbrace ∉ x) :
    placeholdersGo 0 (a ++ (tok x ++ (b ++ (tok x ++ c)))) = [x, x] := by
  rw [placeholdersGo_free a _ ha, placeholdersGo_tok x _ hne hx, placeholdersGo_free b _ hb,
    placeholdersGo_tok x _ hne hx]
  have := placeholdersGo_free c [] hc
  rw [List.append_nil] at this
  rw [this]
  rfl

/-- The replacement of a token in such a format. -/
theorem replaceGo_shape (a b c x v : List Char) (ha : ∀ y ∈ a, y ≠ lbrace)
    (hb : ∀ y ∈ b, y ≠ lbrace) (hc : ∀ y ∈ c, y ≠ lbrace) :
    replaceGo (tok x) v 0 (a ++ (tok x ++ (b ++ (tok x ++ c)))) =
      a ++ (v ++ (b ++ (v ++ c))) := by
  rw [replaceGo_free x v a _ ha, replaceGo_match _ _ (tok_ne_nil x),
    replaceGo_free x v b _ hb, replaceGo_match _ _ (tok_ne_nil x)]
  have := replaceGo_free x v c [] hc
  rw [List.append_nil] at this
  rw [this, replaceGo_nil, List.append_nil]

/-- The Go name of a sampled row is brace-free and is not a name without a row. -/
theorem sampled_name (m : mad) (tbl rows : List FieldRow) (X : String)
    (hnames : ∀ p ∈ placeholders m.Format, lbrace ∉ p.data)
    (hempty : ∀ r ∈ tbl, some r.field ≠ affinity X)
    (hs : IsSample tbl (placeholders m.Format) rows) (r : FieldRow) (hr : r ∈ rows) :
    lbrace ∉ r.field.str.data ∧ rbrace ∉ r.field.str.data ∧ r.field.str ≠ X := by
  obtain ⟨hrt, hrk⟩ := hs.2.2.1 r hr
  obtain ⟨p, hp, e⟩ := mem_keys _ _ hrk
  cases hv : r.field with
  | text s =>
    rw [hv] at e
    have hsp : s = p := affinity_text p s e
    subst hsp
    refine ⟨hnames s hp, (placeholders_spec m.Format s hp).2.1, ?_⟩
    intro hx
    have hx1 : s = X := hx
    subst hx1
    exact hempty r hrt (by rw [hv, e])
  | int i =>
    rw [hv] at e
    have hrange := affinity_int_range p i e
    refine ⟨(showInt_no_brace i).1, (showInt_no_brace i).2, ?_⟩
    intro hx
    have hx1 : showInt i = X := hx
    have := affinity_showInt i hrange
    rw [hx1] at this
    exact hempty r hrt (by rw [hv, this])

/-! ## The claims on rendering -/

/-- C6, amended. In a format whose placeholder names contain no opening brace, a
placeholder `X` for which the field table has no row (no row whose field the name `X`
compares equal to) is still there, as the literal token, in every result of
`mad.String` whose sampling query succeeds, whatever values the other placeholders
get. -/
theorem c6_unresolved_placeholder_kept (m : mad) (tbl rows : List FieldRow) (X : String)
    (hnames : ∀ p ∈ placeholders m.Format, lbrace ∉ p.data)
    (hX : X ∈ placeholders m.Format)
    (hempty : ∀ r ∈ tbl, some r.field ≠ affinity X)
    (hs : IsSample tbl (placeholders m.Format) rows) :
    (token X).data <:+: (m.String (.ok rows)).data := by
  rw [mad_String_ok m rows (List.ne_nil_of_mem hX)]
  obtain ⟨_, hXr, hXi⟩ := placeholders_spec m.Format X hX
  apply tok_infix_substitute X (hnames X hX) hXr _ m.Format _ hXi
  intro q hq
  obtain ⟨r, hr, rfl⟩ := List.mem_map.mp hq
  exact sampled_name m tbl rows X hnames hempty hs r hr

/-- Counterexample of C6: the format is an opening brace, `a`, then the token of `b`,
a space and the token of `b` again. Its placeholders are the name made of `a`, an
opening brace and `b`, which has no row, and `b`, which has the value `v`; the result
has lost the token of the first name. -/
theorem c6_token_destroyed_by_overlap :
    placeholders "\x7ba\x7bb\x7d \x7bb\x7d" = ["a\x7bb", "b"] ∧
    (∀ r ∈ [(⟨1, .text "b", .text "v"⟩ : FieldRow)], some r.field ≠ affinity "a\x7bb") ∧
    IsSample [⟨1, .text "b", .text "v"⟩] (placeholders "\x7ba\x7bb\x7d \x7bb\x7d")
      [⟨1, .text "b", .text "v"⟩] ∧
    mad.String ⟨⟨1, true⟩, "foo", "\x7ba\x7bb\x7d \x7bb\x7d"⟩
      (.ok [⟨1, .text "b", .text "v"⟩]) = "\x7bav v" ∧
    ¬ (token "a\x7bb").data <:+:
      (mad.String ⟨⟨1, true⟩, "foo", "\x7ba\x7bb\x7d \x7bb\x7d"⟩
        (.ok [⟨1, .text "b", .text "v"⟩])).data := by
  decide

/-- Witness of C6: `name` has no row; `who` and `1`, added as `01`, have one. -/
theorem c6_unresolved_placeholder_kept_witness :
    (token "name").data <:+:
      (mad.String ⟨⟨1, true⟩, "foo", "hi {name} from {who} at {01}"⟩
        (.ok [⟨1, .text "who", .text "bob"⟩, ⟨2, .int 1, .int 7⟩])).data :=
  c6_unresolved_placeholder_kept ⟨⟨1, true⟩, "foo", "hi {name} from {who} at {01}"⟩
    [⟨1, .text "who", .text "bob"⟩, ⟨2, .int 1, .int 7⟩]
    [⟨1, .text "who", .text "bob"⟩, ⟨2, .int 1, .int 7⟩] "name"
    (by decide) (by decide) (by decide) (by decide)

/-- C7, amended. Let the field name `x` be non-empty, without closing brace, and stored
verbatim by the field table: it is stored as `k` and `k` reads back as `x` (a text that
is no number literal, or an integer in its decimal form). If `k` has at least one row
and the format is `a ++ token x ++ b ++ token x ++ c` with brace-free `a`, `b`, `c`,
every result of `mad.String` whose sampling query succeeds is `a ++ v ++ b ++ v ++ c`
for the value `v`, as read back, of one row of `k`. -/
theorem c7_same_value_twice (m : mad) (tbl rows : List FieldRow) (x a b c : String)
    (k : SqlValue) (hk : affinity x = some k) (hstr : k.str = x)
    (hne : x.data ≠ []) (hxr : rbrace ∉ x.data)
    (ha : ∀ ch ∈ a.data, isBrace ch = false) (hb : ∀ ch ∈ b.data, isBrace ch = false)
    (hc : ∀ ch ∈ c.data, isBrace ch = false)
    (hfmt : m.Format = a ++ token x ++ b ++ token x ++ c)
    (hpool : ∃ r ∈ tbl, r.field = k)
    (hs : IsSample tbl (placeholders m.Format) rows) :
    ∃ r ∈ tbl, r.field = k ∧
      m.String (.ok rows) = a ++ r.value.str ++ b ++ r.value.str ++ c := by
  have ha1 := not_lbrace_of_isBrace _ ha
  have hb1 := not_lbrace_of_isBrace _ hb
  have hc1 := not_lbrace_of_isBrace _ hc
  have hdata : m.Format.data =
      a.data ++ (tok x.data ++ (b.data ++ (tok x.data ++ c.data))) := by
    rw [hfmt]
    simp only [String.data_append, token, List.append_assoc]
  have hph : placeholders m.Format = [x, x] := by
    unfold placeholders
    rw [hdata, placeholdersGo_shape _ _ _ _ ha1 hb1 hc1 hne hxr]
    rfl
  rw [hph] at hs
  obtain ⟨r, hrows, hrt, hrk⟩ :=
    sample_single tbl rows [x, x] x k (by simp) (by simp) hk hpool hs
  refine ⟨r, hrt, hrk, ?_⟩
  rw [mad_String_ok m rows (by rw [hph]; simp), hrows]
  show Replace m.Format (token r.field.str) r.value.str = _
  apply String.ext
  rw [Replace_token_data, hrk, hstr, hdata, replaceGo_shape _ _ _ _ _ ha1 hb1 hc1]
  simp only [String.data_append, List.append_assoc]

/-- Counterexample of C7, two fields with a non-empty pool. The first name is `a`, a
closing brace and `b`, with the value `v`: the placeholders of the format made of its
token, ` and `, and its token again are `a` twice, no row is sampled, and the result is
the format itself. The second name is `01`, added by `madlib add 01 v`: it is stored as
the integer 1, the row is sampled for `{01} and {01}` and comes back with the name `1`,
whose token is not in the format, and the result is the format itself, not `v and v`. -/
theorem c7_name_not_a_placeholder :
    ((⟨⟨1, true⟩, "foo", "\x7ba\x7db\x7d and \x7ba\x7db\x7d"⟩ : mad).Format =
        "" ++ token "a\x7db" ++ " and " ++ token "a\x7db" ++ "" ∧
      placeholders "\x7ba\x7db\x7d and \x7ba\x7db\x7d" = ["a", "a"] ∧
      IsSample [⟨1, .text "a\x7db", .text "v"⟩]
        (placeholders "\x7ba\x7db\x7d and \x7ba\x7db\x7d") [] ∧
      mad.String ⟨⟨1, true⟩, "foo", "\x7ba\x7db\x7d and \x7ba\x7db\x7d"⟩ (.ok []) =
        "\x7ba\x7db\x7d and \x7ba\x7db\x7d" ∧
      mad.String ⟨⟨1, true⟩, "foo", "\x7ba\x7db\x7d and \x7ba\x7db\x7d"⟩ (.ok []) ≠
        "v and v") ∧
    (Message (Oracle.ok []) DB.empty ⟨"madlib add 01 v", "#chan", true⟩ =
        .done ⟨true, [("#chan", "Added.")], ⟨[], [⟨1, .int 1, .text "v"⟩]⟩⟩ ∧
      (⟨⟨1, true⟩, "foo", "{01} and {01}"⟩ : mad).Format =
        "" ++ token "01" ++ " and " ++ token "01" ++ "" ∧
      IsSample [⟨1, .int 1, .text "v"⟩] (placeholders "{01} and {01}")
        [⟨1, .int 1, .text "v"⟩] ∧
      mad.String ⟨⟨1, true⟩, "foo", "{01} and {01}"⟩ (.ok [⟨1, .int 1, .text "v"⟩]) =
        "{01} and {01}" ∧
      mad.String ⟨⟨1, true⟩, "foo", "{01} and {01}"⟩ (.ok [⟨1, .int 1, .text "v"⟩]) ≠
        "v and v") := by
  decide

/-- Witness of C7: the format `{x} and {x}` with the pool `red`, `blue` of `x`. -/
theorem c7_same_value_twice_witness :
    ∃ r ∈ [(⟨1, .text "x", .text "red"⟩ : FieldRow), ⟨2, .text "x", .text "blue"⟩],
      r.field = .text "x" ∧
      mad.String ⟨⟨1, true⟩, "foo", "{x} and {x}"⟩ (.ok [⟨2, .text "x", .text "blue"⟩]) =
        "" ++ r.value.str ++ " and " ++ r.value.str ++ "" :=
  c7_same_value_twice ⟨⟨1, true⟩, "foo", "{x} and {x}"⟩
    [⟨1, .text "x", .text "red"⟩, ⟨2, .text "x", .text "blue"⟩] [⟨2, .text "x", .text "blue"⟩]
    "x" "" " and " "" (.text "x") (by decide) (by decide) (by decide) (by decide)
    (by decide) (by decide) (by decide) (by decide) (by decide) (by decide)

/-! ## The command switch -/

theorem dispatch_help (o : Oracle) (db : DB) (ch sub : String) (args : List String)
    (h : malformed sub args) :
    dispatch o db ch (sub :: args) = .done ⟨true, [(ch, helpText)], db⟩ := by
  unfold dispatch
  simp only [List.head?_cons, List.length_cons, Option.some.injEq]
  rcases h with ⟨rfl, h⟩ | ⟨rfl, h⟩ | ⟨rfl, h⟩ | ⟨rfl, h⟩ | ⟨rfl, h⟩ | ⟨h1, h2, h3, h4, h5⟩
  · rw [if_neg (by omega), if_neg (fun e => absurd e.1 (by decide)),
      if_neg (fun e => absurd e.1 (by decide)), if_neg (fun e => absurd e.1 (by decide)),
      if_neg (fun e => absurd e.1 (by decide))]
  · rw [if_neg (fun e => absurd e.1 (by decide)), if_neg (fun e => absurd e.1 (by decide)),
      if_neg (by omega), if_neg (fun e => absurd e.1 (by decide)),
      if_neg (fun e => absurd e.1 (by decide))]
  · rw [if_neg (fun e => absurd e.1 (by decide)), if_neg (by omega),
      if_neg (fun e => absurd e.1 (by decide)), if_neg (fun e => absurd e.1 (by decide)),
      if_neg (fun e => absurd e.1 (by decide))]
  · rw [if_neg (fun e => absurd e.1 (by decide)), if_neg (fun e => absurd e.1 (by decide)),
      if_neg (fun e => absurd e.1 (by decide)), if_neg (by omega),
      if_neg (fun e => absurd e.1 (by decide))]
  · have : args.length ≠ 0 := fun e => h (List.length_eq_zero.mp e)
    rw [if_neg (fun e => absurd e.1 (by decide)), if_neg (fun e => absurd e.1 (by decide)),
      if_neg (fun e => absurd e.1 (by decide)), if_neg (fun e => absurd e.1 (by decide)),
      if_neg (by omega)]
  · rw [if_neg (fun e => h1 e.1), if_neg (fun e => h2 e.1), if_neg (fun e => h3 e.1),
      if_neg (fun e => h4 e.1), if_neg (fun e => h5 e.1)]

theorem Message_no_template (o : Oracle) (db : DB) (msg : Msg)
    (hlook : getMadlib o.lookup db (ToLower msg.Body) = .ok none) :
    Message o db msg = command o db msg (ToLower msg.Body) := by
  unfold Message
  simp only [hlook]

theorem command_dispatch (o : Oracle) (db : DB) (msg : Msg) (m w : String)
    (ws : List String) (hcmd : msg.Command = true) (hpre : HasPrefix m "madlib" = true)
    (hms : Fields (TrimPrefix m "madlib") = w :: ws) :
    command o db msg m = dispatch o db msg.Channel (w :: ws) := by
  unfold command
  simp [hcmd, hpre, hms]

theorem command_not_consumed (o : Oracle) (db : DB) (msg : Msg) (m : String)
    (h : msg.Command = false ∨ HasPrefix m "madlib" = false ∨
      Fields (TrimPrefix m "madlib") = []) :
    command o db msg m = .done ⟨false, [], db⟩ := by
  unfold command
  rcases h with h | h | h <;> simp [h]

/-- C9, counterexample. The addressed command `madlib remove name two words` is
malformed and the template table is empty, but the lookup of the body fails: the reply
is `There was a problem.`, not the help text. -/
theorem c9_failing_lookup_no_help :
    HasPrefix (ToLower "madlib remove name two words") "madlib" = true ∧
    Fields (TrimPrefix (ToLower "madlib remove name two words") "madlib") =
      ["remove", "name", "two", "words"] ∧
    malformed "remove" ["name", "two", "words"] ∧
    Message ⟨some "database is locked", none, none, .ok []⟩ DB.empty
        ⟨"madlib remove name two words", "#chan", true⟩ =
      .done ⟨true, [("#chan", "There was a problem.")], DB.empty⟩ := by
  decide

/-- C9, amended. An addressed `madlib` command for which the lookup of the lower-cased
body succeeds and finds no template, and that is malformed (wrong number of arguments
for its subcommand, or unknown subcommand), is answered with exactly the help text;
`Message` returns true and both tables are unchanged. -/
theorem c9_malformed_command_gets_help (o : Oracle) (db : DB) (msg : Msg) (sub : String)
    (args : List String) (hcmd : msg.Command = true)
    (hlook : getMadlib o.lookup db (ToLower msg.Body) = .ok none)
    (hpre : HasPrefix (ToLower msg.Body) "madlib" = true)
    (hms : Fields (TrimPrefix (ToLower msg.Body) "madlib") = sub :: args)
    (hbad : malformed sub args) :
    Message o db msg = .done ⟨true, [(msg.Channel,
      "Address me and use the command madlib with the following:\n" ++
      "\t`create <madlib name> <format>` - make a new madlib\n" ++
      "\t`delete <madlib name>` - remove a madlib\n" ++
      "\t`add <field> <value>` - add a format field value\n" ++
      "\t`remove <field> <value>` - remove a format field value\n" ++
      "\t`list` - list all current madlibs\n" ++
      "Format is a string with a field represented as `\x7bfield\x7d`")], db⟩ := by
  rw [Message_no_template o db msg hlook, command_dispatch o db msg _ sub args hcmd hpre hms,
    dispatch_help o db _ sub args hbad]
  rfl

/-- Witness of C9: `madlib remove name two words` (a value of two words). -/
theorem c9_malformed_command_gets_help_witness :
    Message (Oracle.ok []) DB.empty ⟨"madlib remove name two words", "#chan", true⟩ =
      .done ⟨true, [("#chan",
        "Address me and use the command madlib with the following:\n" ++
        "\t`create <madlib name> <format>` - make a new madlib\n" ++
        "\t`delete <madlib name>` - remove a madlib\n" ++
        "\t`add <field> <value>` - add a format field value\n" ++
        "\t`remove <field> <value>` - remove a format field value\n" ++
        "\t`list` - list all current madlibs\n" ++
        "Format is a string with a field represented as `\x7bfield\x7d`")], DB.empty⟩ :=
  c9_malformed_command_gets_help (Oracle.ok []) DB.empty
    ⟨"madlib remove name two words", "#chan", true⟩ "remove" ["name", "two", "words"]
    rfl (by decide) (by decide) (by decide)
    (Or.inr (Or.inr (Or.inr (Or.inl ⟨rfl, by decide⟩))))

/-- C8, counterexample. The addressed body `madlibcreate foo hi {x}` has the first word
`madlibcreate`, not `madlib`, and equals no template name, yet `Message` returns true,
replies and inserts a template. -/
theorem c8_first_word_not_madlib_is_consumed :
    getMadlib none DB.empty (ToLower "madlibcreate foo hi {x}") = .ok none ∧
    (Fields "madlibcreate foo hi {x}").head? = some "madlibcreate" ∧
    Message (Oracle.ok []) DB.empty ⟨"madlibcreate foo hi {x}", "#chan", true⟩ =
      .done ⟨true, [("#chan", "hi {x}")], ⟨[⟨1, .text "foo", .text "hi {x}"⟩], []⟩⟩ := by
  decide

/-- C8, amended. When the lookup of the lower-cased body finds no template, and the
message is not addressed to the bot, or the lower-cased body does not start with the
characters `madlib`, or nothing but white space follows that prefix, `Message` returns
false, sends nothing and leaves both tables unchanged. -/
theorem c8_not_consumed (o : Oracle) (db : DB) (msg : Msg)
    (hlook : getMadlib o.lookup db (ToLower msg.Body) = .ok none)
    (h : msg.Command = false ∨ HasPrefix (ToLower msg.Body) "madlib" = false ∨
      Fields (TrimPrefix (ToLower msg.Body) "madlib") = []) :
    Message o db msg = .done ⟨false, [], db⟩ := by
  rw [Message_no_template o db msg hlook, command_not_consumed o db msg _ h]

/-- Witness of C8: an unaddressed `madlib list`. -/
theorem c8_not_consumed_witness :
    Message (Oracle.ok []) DB.empty ⟨"madlib list", "#chan", false⟩ =
      .done ⟨false, [], DB.empty⟩ :=
  c8_not_consumed (Oracle.ok []) DB.empty ⟨"madlib list", "#chan", false⟩ (by decide)
    (Or.inl rfl)

/-- C5, counterexample. With the template `foo` stored, the body `foo` followed by a
space, whose trimmed lower-cased text is `foo`, is not answered, addressed or not. -/
theorem c5_untrimmed_body_not_triggered :
    ToLower (TrimSpace "foo ") = "foo" ∧
    Message (Oracle.ok []) ⟨[⟨1, .text "foo", .text "hi {x}"⟩], []⟩ ⟨"foo ", "#chan", false⟩ =
      .done ⟨false, [], ⟨[⟨1, .text "foo", .text "hi {x}"⟩], []⟩⟩ ∧
    Message (Oracle.ok []) ⟨[⟨1, .text "foo", .text "hi {x}"⟩], []⟩ ⟨"foo ", "#chan", true⟩ =
      .done ⟨false, [], ⟨[⟨1, .text "foo", .text "hi {x}"⟩], []⟩⟩ := by
  decide

theorem find?_name_some (l : List MadRow) (k : SqlValue)
    (h : ∃ t ∈ l, t.name = k) :
    ∃ t ∈ l, t.name = k ∧ l.find? (fun r => r.name == k) = some t := by
  cases hf : l.find? (fun r => r.name == k) with
  | none =>
    obtain ⟨t, ht, hn⟩ := h
    have := List.find?_eq_none.mp hf t ht
    simp [hn] at this
  | some t =>
    refine ⟨t, List.mem_of_find?_eq_some hf, ?_, rfl⟩
    simpa using List.find?_some hf

/-- C5, amended. When the lower-cased body, passed to the lookup without trimming,
compares equal to the name of a stored template (as a text for a name that is no number
literal, as an integer for an integer literal) and the lookup does not fail, `Message`
sends the rendering of that template to the channel of the message and returns true,
whether the message is addressed to the bot or not. -/
theorem c5_passive_trigger (o : Oracle) (db : DB) (msg : Msg) (k : SqlValue)
    (hlook : o.lookup = none)
    (hk : affinity (ToLower msg.Body) = some k)
    (hname : ∃ t ∈ db.madlib, t.name = k) :
    ∃ t ∈ db.madlib, t.name = k ∧
      Message o db msg = .done ⟨true, [(msg.Channel, t.scan.String o.sample)], db⟩ := by
  obtain ⟨t, ht, hn, hf⟩ := find?_name_some db.madlib k hname
  refine ⟨t, ht, hn, ?_⟩
  unfold Message getMadlib
  simp only [hlook, hk, hf, Option.map_some', MadRow.scan, if_true]

/-- Witness of C5: the unaddressed body `FOO` with the template `foo` stored. -/
theorem c5_passive_trigger_witness :
    ∃ t ∈ [(⟨1, .text "foo", .text "hi {x}"⟩ : MadRow)], t.name = .text "foo" ∧
      Message (Oracle.ok []) ⟨[⟨1, .text "foo", .text "hi {x}"⟩], []⟩ ⟨"FOO", "#chan", false⟩ =
        .done ⟨true, [("#chan", t.scan.String (.ok []))],
          ⟨[⟨1, .text "foo", .text "hi {x}"⟩], []⟩⟩ :=
  c5_passive_trigger (Oracle.ok []) ⟨[⟨1, .text "foo", .text "hi {x}"⟩], []⟩
    ⟨"FOO", "#chan", false⟩ (.text "foo") rfl (by decide) (by decide)

/-- C2, the code at a format without placeholder: the template `foo` with the format
`hello` renders as the error text of the IN-query expansion, whatever the field store
holds, and so does the reply to its creation. -/
theorem c2_plain_format_renders_error :
    placeholders "hello" = [] ∧
    (∀ sel, mad.String ⟨⟨1, true⟩, "foo", "hello"⟩ sel =
      "error: empty slice passed to 'in' query") ∧
    Message (Oracle.ok []) DB.empty ⟨"madlib create foo hello", "#chan", true⟩ =
      .done ⟨true, [("#chan", "error: empty slice passed to 'in' query")],
        ⟨[⟨1, .text "foo", .text "hello"⟩], []⟩⟩ :=
  ⟨by decide, fun sel => mad_String_no_placeholder _ sel (by decide), by decide⟩

/-- C3, the code when the statement of `add` or `remove` fails: the reply is `Added.`
or `Removed.`, not the failure text. -/
theorem c3_add_remove_ignore_storage_error :
    Message ⟨none, some "database is locked", none, .ok []⟩ DB.empty
        ⟨"madlib add name World", "#chan", true⟩ =
      .done ⟨true, [("#chan", "Added.")], DB.empty⟩ ∧
    Message ⟨none, some "database is locked", none, .ok []⟩
        ⟨[], [⟨1, .text "name", .text "world"⟩]⟩ ⟨"madlib remove name World", "#chan", true⟩ =
      .done ⟨true, [("#chan", "Removed.")], ⟨[], [⟨1, .text "name", .text "world"⟩]⟩⟩ := by
  decide

/-- The passive trigger on an integer name: with the template `007` stored as the
integer 7, the bodies `7`, `07` and `7` followed by a space all find it. -/
theorem passive_trigger_integer_name :
    Message (Oracle.ok []) DB.empty ⟨"madlib create 007 hi {x}", "#chan", true⟩ =
      .done ⟨true, [("#chan", "hi {x}")], ⟨[⟨1, .int 7, .text "hi {x}"⟩], []⟩⟩ ∧
    Message (Oracle.ok []) ⟨[⟨1, .int 7, .text "hi {x}"⟩], []⟩ ⟨"7", "#chan", false⟩ =
      .done ⟨true, [("#chan", "hi {x}")], ⟨[⟨1, .int 7, .text "hi {x}"⟩], []⟩⟩ ∧
    Message (Oracle.ok []) ⟨[⟨1, .int 7, .text "hi {x}"⟩], []⟩ ⟨"07", "#chan", false⟩ =
      .done ⟨true, [("#chan", "hi {x}")], ⟨[⟨1, .int 7, .text "hi {x}"⟩], []⟩⟩ ∧
    Message (Oracle.ok []) ⟨[⟨1, .int 7, .text "hi {x}"⟩], []⟩ ⟨"7 ", "#chan", false⟩ =
      .done ⟨true, [("#chan", "hi {x}")], ⟨[⟨1, .int 7, .text "hi {x}"⟩], []⟩⟩ ∧
    Message (Oracle.ok []) ⟨[⟨1, .int 7, .text "hi {x}"⟩], []⟩ ⟨"7.0", "#chan", false⟩ =
      .real := by
  decide

/-! ## Lemmas on `Fields` and on the subcommands -/

theorem fieldsGo_no_space (x : String) :
    ∀ (s cur : List Char), (∀ c ∈ cur, isSpace c = false) → x ∈ fieldsGo cur s →
      ∀ c ∈ x.data, isSpace c = false := by
  intro s
  induction s with
  | nil =>
    intro cur hcur hx
    simp only [fieldsGo] at hx
    split_ifs at hx with h
    · simp at hx
    · simp only [List.mem_singleton] at hx
      subst hx
      intro c hc
      exact hcur c (List.mem_reverse.mp hc)
  | cons a s ih =>
    intro cur hcur hx
    simp only [fieldsGo] at hx
    split_ifs at hx with h1 h2
    · exact ih [] (by simp) hx
    · rcases List.mem_cons.mp hx with h | h
      · subst h
        intro c hc
        exact hcur c (List.mem_reverse.mp hc)
      · exact ih [] (by simp) h
    · refine ih (a :: cur) ?_ hx
      intro c hc
      rcases List.mem_cons.mp hc with h | h
      · rw [h]; simpa using h1
      · exact hcur c h

theorem fieldsGo_length_le_one :
    ∀ (s cur : List Char), (∀ c ∈ s, isSpace c = false) → (fieldsGo cur s).length ≤ 1 := by
  intro s
  induction s with
  | nil =>
    intro cur _
    simp only [fieldsGo]
    split_ifs <;> simp
  | cons a s ih =>
    intro cur h
    have ha : isSpace a = false := h a (List.mem_cons_self _ _)
    simp only [fieldsGo, ha]
    exact ih (a :: cur) (fun c hc => h c (List.mem_cons_of_mem _ hc))

/-- A word of a command is not the body of a command of two words or more. -/
theorem body_ne_word (m n t : String) (hn : n ∈ Fields t)
    (hms : 2 ≤ (Fields (TrimPrefix m "madlib")).length) : m ≠ n := by
  intro e
  subst e
  have hns : ∀ c ∈ m.data, isSpace c = false := fieldsGo_no_space m t.data [] (by simp) hn
  have hle : (Fields (TrimPrefix m "madlib")).length ≤ 1 := by
    unfold Fields TrimPrefix
    split_ifs
    · exact fieldsGo_length_le_one _ [] (fun c hc => hns c (List.mem_of_mem_drop hc))
    · exact fieldsGo_length_le_one _ [] hns
  omega

theorem affinity_command (m : String) (h : HasPrefix m "madlib" = true) :
    affinity m = some (.text m) := by
  have hp : "madlib".data <+: m.data := List.isPrefixOf_iff_prefix.mp h
  obtain ⟨t, ht⟩ := hp
  apply affinity_of_mem m (Char.ofNat 109) _ (by decide) (by decide)
  rw [← ht]
  exact List.mem_append_left _ (by decide)

theorem affinity_format (format f : String) (h : f ∈ placeholders format) :
    affinity format = some (.text format) := by
  obtain ⟨_, _, hi⟩ := placeholders_spec format f h
  apply affinity_of_mem format lbrace _ (by decide) (by decide)
  exact hi.subset (by simp [token, tok])

theorem getMadlib_none_of_ne (db : DB) (m : String) (k : SqlValue)
    (hk : affinity m = some k) (h : ∀ t ∈ db.madlib, t.name ≠ k) :
    getMadlib none db m = .ok none := by
  unfold getMadlib
  have : db.madlib.find? (fun r => r.name == k) = none := by
    rw [List.find?_eq_none]
    intro t ht
    simpa using h t ht
  simp only [hk, this, Option.map_none']

theorem dispatch_create (o : Oracle) (db : DB) (ch n w : String) (ws : List String)
    (vn vf : SqlValue) (hs : o.stmt = none) (hr : o.relookup = none)
    (hn : affinity n = some vn) (hf : affinity (Join (w :: ws) " ") = some vf) :
    ∃ t ∈ db.madlib ++ [⟨nextId (db.madlib.map (fun r => r.id)), vn, vf⟩],
      t.name = vn ∧
      dispatch o db ch ("create" :: n :: w :: ws) =
        .done ⟨true, [(ch, t.scan.String o.sample)],
          ⟨db.madlib ++ [⟨nextId (db.madlib.map (fun r => r.id)), vn, vf⟩],
            db.madlib_fields⟩⟩ := by
  obtain ⟨t, ht, htn, hfind⟩ := find?_name_some
    (db.madlib ++ [⟨nextId (db.madlib.map (fun r => r.id)), vn, vf⟩]) vn
    ⟨_, List.mem_append_right _ (List.mem_singleton_self _), rfl⟩
  refine ⟨t, ht, htn, ?_⟩
  unfold dispatch
  rw [if_pos ⟨rfl, by simp⟩]
  simp only [newMad, getMadlib, hs, hr, hn, hf, List.getD_cons_succ, List.getD_cons_zero,
    List.drop_succ_cons, List.drop_zero, hfind, Option.map_some']

theorem dispatch_add (o : Oracle) (db : DB) (ch f v : String) (vs : List String)
    (vf vv : SqlValue) (hs : o.stmt = none)
    (hf : affinity f = some vf) (hv : affinity (Join (v :: vs) " ") = some vv) :
    dispatch o db ch ("add" :: f :: v :: vs) =
      .done ⟨true, [(ch, "Added.")],
        ⟨db.madlib,
          db.madlib_fields ++ [⟨nextId (db.madlib_fields.map (fun r => r.id)), vf, vv⟩]⟩⟩ := by
  unfold dispatch
  simp only [List.head?_cons, Option.some.injEq]
  rw [if_neg (fun e => absurd e.1 (by decide)), if_neg (fun e => absurd e.1 (by decide)),
    if_pos ⟨trivial, by simp⟩]
  simp only [addField, hs, hf, hv, List.getD_cons_succ, List.getD_cons_zero,
    List.drop_succ_cons, List.drop_zero]

/-- C4, counterexample. From empty tables, two `madlib create foo ...` commands with no
delete in between both succeed; the table then holds two rows named `foo`, with two
formats, and `madlib list` answers `foo, foo`. -/
theorem c4_same_name_twice :
    Message (Oracle.ok []) DB.empty ⟨"madlib create foo a {x}", "#chan", true⟩ =
      .done ⟨true, [("#chan", "a {x}")], ⟨[⟨1, .text "foo", .text "a {x}"⟩], []⟩⟩ ∧
    Message (Oracle.ok []) ⟨[⟨1, .text "foo", .text "a {x}"⟩], []⟩
        ⟨"madlib create foo b {x}", "#chan", true⟩ =
      .done ⟨true, [("#chan", "a {x}")],
        ⟨[⟨1, .text "foo", .text "a {x}"⟩, ⟨2, .text "foo", .text "b {x}"⟩], []⟩⟩ ∧
    listMad none ⟨[⟨1, .text "foo", .text "a {x}"⟩, ⟨2, .text "foo", .text "b {x}"⟩], []⟩ =
      .ok ["foo", "foo"] ∧
    Message (Oracle.ok [])
        ⟨[⟨1, .text "foo", .text "a {x}"⟩, ⟨2, .text "foo", .text "b {x}"⟩], []⟩
        ⟨"madlib list", "#chan", true⟩ =
      .done ⟨true, [("#chan", "foo, foo")],
        ⟨[⟨1, .text "foo", .text "a {x}"⟩, ⟨2, .text "foo", .text "b {x}"⟩], []⟩⟩ := by
  decide

/-- C4, amended. The template table has no uniqueness constraint. Every successful
`madlib create n format...` appends one row, whatever the table holds, with the name and
the format as the columns store them (`vn` and `vf`: the text itself, or the integer of
an integer literal). `listMad`, run right after, gives the names of before followed by
the new name as it reads back, so it contains that name once more than before the
command, exactly once when it was not listed before. -/
theorem c4_create_appends_one_row (o : Oracle) (db : DB) (msg : Msg) (n w : String)
    (ws : List String) (vn vf : SqlValue) (hcmd : msg.Command = true)
    (hlook : getMadlib o.lookup db (ToLower msg.Body) = .ok none)
    (hpre : HasPrefix (ToLower msg.Body) "madlib" = true)
    (hms : Fields (TrimPrefix (ToLower msg.Body) "madlib") = "create" :: n :: w :: ws)
    (hs : o.stmt = none) (hr : o.relookup = none)
    (hn : affinity n = some vn) (hf : affinity (Join (w :: ws) " ") = some vf) :
    ∃ out, Message o db msg = .done out ∧ out.handled = true ∧
      out.db.madlib = db.madlib ++ [⟨nextId (db.madlib.map (fun r => r.id)), vn, vf⟩] ∧
      listMad none out.db = .ok (db.madlib.map (fun r => r.name.str) ++ [vn.str]) ∧
      (out.db.madlib.map (fun r => r.name.str)).count vn.str =
        (db.madlib.map (fun r => r.name.str)).count vn.str + 1 := by
  obtain ⟨t, _, _, hd⟩ := dispatch_create o db msg.Channel n w ws vn vf hs hr hn hf
  rw [Message_no_template o db msg hlook,
    command_dispatch o db msg _ "create" (n :: w :: ws) hcmd hpre hms, hd]
  refine ⟨_, rfl, rfl, rfl, ?_, ?_⟩
  · simp [listMad]
  · simp [List.count_append]

/-- Witness of C4: the template `007`, stored and listed as `7`, in an empty table. -/
theorem c4_create_appends_one_row_witness :
    ∃ out, Message (Oracle.ok []) DB.empty ⟨"madlib create 007 hi {x}", "#chan", true⟩ =
        .done out ∧ out.handled = true ∧
      out.db.madlib = DB.empty.madlib ++
        [⟨nextId (DB.empty.madlib.map (fun r => r.id)), .int 7, .text "hi {x}"⟩] ∧
      listMad none out.db =
        .ok (DB.empty.madlib.map (fun r => r.name.str) ++ [(SqlValue.int 7).str]) ∧
      (out.db.madlib.map (fun r => r.name.str)).count (SqlValue.int 7).str =
        (DB.empty.madlib.map (fun r => r.name.str)).count (SqlValue.int 7).str + 1 :=
  c4_create_appends_one_row (Oracle.ok []) DB.empty
    ⟨"madlib create 007 hi {x}", "#chan", true⟩ "007" "hi" ["{x}"] (.int 7) (.text "hi {x}")
    rfl (by decide) (by decide) (by decide) rfl rfl (by decide) (by decide)

/-- C1, counterexample. From empty tables, after the addressed commands
`madlib create foo Hello {name}!` and `madlib add name World`, the body `foo` is
answered with `hello world!`, not with `Hello World!`: the stored format and the stored
value are the lower-cased ones. And after `madlib add name 007` instead, the stored
value is the integer 7 and the answer is `hello 7!`. -/
theorem c1_scenario_is_lower_cased :
    Message (Oracle.ok []) DB.empty ⟨"madlib create foo Hello {name}!", "#chan", true⟩ =
      .done ⟨true, [("#chan", "hello {name}!")],
        ⟨[⟨1, .text "foo", .text "hello {name}!"⟩], []⟩⟩ ∧
    Message (Oracle.ok []) ⟨[⟨1, .text "foo", .text "hello {name}!"⟩], []⟩
        ⟨"madlib add name World", "#chan", true⟩ =
      .done ⟨true, [("#chan", "Added.")],
        ⟨[⟨1, .text "foo", .text "hello {name}!"⟩], [⟨1, .text "name", .text "world"⟩]⟩⟩ ∧
    IsSample [⟨1, .text "name", .text "world"⟩] (placeholders "hello {name}!")
      [⟨1, .text "name", .text "world"⟩] ∧
    Message (Oracle.ok [⟨1, .text "name", .text "world"⟩])
        ⟨[⟨1, .text "foo", .text "hello {name}!"⟩], [⟨1, .text "name", .text "world"⟩]⟩
        ⟨"foo", "#chan", false⟩ =
      .done ⟨true, [("#chan", "hello world!")],
        ⟨[⟨1, .text "foo", .text "hello {name}!"⟩], [⟨1, .text "name", .text "world"⟩]⟩⟩ ∧
    ("hello world!" : String) ≠ "Hello World!" ∧
    Message (Oracle.ok []) ⟨[⟨1, .text "foo", .text "hello {name}!"⟩], []⟩
        ⟨"madlib add name 007", "#chan", true⟩ =
      .done ⟨true, [("#chan", "Added.")],
        ⟨[⟨1, .text "foo", .text "hello {name}!"⟩], [⟨1, .text "name", .int 7⟩]⟩⟩ ∧
    IsSample [⟨1, .text "name", .int 7⟩] (placeholders "hello {name}!")
      [⟨1, .text "name", .int 7⟩] ∧
    Message (Oracle.ok [⟨1, .text "name", .int 7⟩])
        ⟨[⟨1, .text "foo", .text "hello {name}!"⟩], [⟨1, .text "name", .int 7⟩]⟩
        ⟨"foo", "#chan", false⟩ =
      .done ⟨true, [("#chan", "hello 7!")],
        ⟨[⟨1, .text "foo", .text "hello {name}!"⟩], [⟨1, .text "name", .int 7⟩]⟩⟩ := by
  decide

/-- C1, amended. From empty tables and with a backend that does not fail: after an
addressed `madlib create n format...` and an addressed `madlib add f value...`, the
template table holds one row with the name as stored (`vn`) and the words of the
lower-cased format rejoined with single spaces, the field table holds one row with the
field and the rejoined lower-cased value as stored (`vf`, `vv`: the text itself, or the
integer of an integer literal), and a body whose lower-cased text compares equal to the
stored name is answered, addressed or not, with that format in which every token of the
field as it reads back is replaced by the value as it reads back, provided `f` is one
of the placeholders of the format. -/
theorem c1_create_add_render (o1 o2 o3 : Oracle) (b1 b2 b3 ch1 ch2 ch3 : String)
    (cmd3 : Bool) (n f w v : String) (ws vs : List String) (rows : List FieldRow)
    (vn vf vv : SqlValue)
    (h1p : HasPrefix (ToLower b1) "madlib" = true)
    (h1 : Fields (TrimPrefix (ToLower b1) "madlib") = "create" :: n :: w :: ws)
    (h2p : HasPrefix (ToLower b2) "madlib" = true)
    (h2 : Fields (TrimPrefix (ToLower b2) "madlib") = "add" :: f :: v :: vs)
    (hn : affinity n = some vn) (h3 : affinity (ToLower b3) = some vn)
    (hf : f ∈ placeholders (Join (w :: ws) " "))
    (hvf : affinity f = some vf) (hvv : affinity (Join (v :: vs) " ") = some vv)
    (ho1 : o1.lookup = none ∧ o1.stmt = none ∧ o1.relookup = none)
    (ho2 : o2.lookup = none ∧ o2.stmt = none)
    (ho3 : o3.lookup = none ∧ o3.sample = .ok rows)
    (hs : IsSample [⟨1, vf, vv⟩] (placeholders (Join (w :: ws) " ")) rows) :
    (∃ reply, Message o1 DB.empty ⟨b1, ch1, true⟩ =
      .done ⟨true, [(ch1, reply)], ⟨[⟨1, vn, .text (Join (w :: ws) " ")⟩], []⟩⟩) ∧
    Message o2 ⟨[⟨1, vn, .text (Join (w :: ws) " ")⟩], []⟩ ⟨b2, ch2, true⟩ =
      .done ⟨true, [(ch2, "Added.")],
        ⟨[⟨1, vn, .text (Join (w :: ws) " ")⟩], [⟨1, vf, vv⟩]⟩⟩ ∧
    Message o3 ⟨[⟨1, vn, .text (Join (w :: ws) " ")⟩], [⟨1, vf, vv⟩]⟩ ⟨b3, ch3, cmd3⟩ =
      .done ⟨true, [(ch3, Replace (Join (w :: ws) " ") (token vf.str) vv.str)],
        ⟨[⟨1, vn, .text (Join (w :: ws) " ")⟩], [⟨1, vf, vv⟩]⟩⟩ := by
  have hfmt := affinity_format _ f hf
  refine ⟨?_, ?_, ?_⟩
  · have hl : getMadlib o1.lookup DB.empty (ToLower b1) = .ok none := by
      rw [ho1.1]
      exact getMadlib_none_of_ne DB.empty _ _ (affinity_command _ h1p)
        (fun t ht => absurd ht (List.not_mem_nil t))
    obtain ⟨t, _, _, hd⟩ :=
      dispatch_create o1 DB.empty ch1 n w ws vn _ ho1.2.1 ho1.2.2 hn hfmt
    refine ⟨t.scan.String o1.sample, ?_⟩
    rw [Message_no_template o1 DB.empty ⟨b1, ch1, true⟩ hl,
      command_dispatch o1 DB.empty ⟨b1, ch1, true⟩ _ "create" (n :: w :: ws) rfl h1p h1, hd]
    rfl
  · have hne : ToLower b2 ≠ n :=
      body_ne_word (ToLower b2) n (TrimPrefix (ToLower b1) "madlib")
        (by rw [h1]; simp) (by rw [h2]; simp)
    have hl : getMadlib o2.lookup ⟨[⟨1, vn, .text (Join (w :: ws) " ")⟩], []⟩ (ToLower b2) =
        .ok none := by
      rw [ho2.1]
      apply getMadlib_none_of_ne _ _ _ (affinity_command _ h2p)
      intro t ht e
      rw [List.mem_singleton.mp ht] at e
      have e1 : vn = .text (ToLower b2) := e
      rw [e1] at hn
      exact hne (affinity_text n _ hn)
    rw [Message_no_template o2 _ ⟨b2, ch2, true⟩ hl,
      command_dispatch o2 _ ⟨b2, ch2, true⟩ _ "add" (f :: v :: vs) rfl h2p h2,
      dispatch_add o2 _ ch2 f v vs vf vv ho2.2 hvf hvv]
    rfl
  · have hkey : some vf ∈ (placeholders (Join (w :: ws) " ")).map affinity :=
      List.mem_map.mpr ⟨f, hf, hvf⟩
    have hrows := sample_of_singleton ⟨1, vf, vv⟩ _ rows hkey hs
    have hne : placeholders (Join (w :: ws) " ") ≠ [] := List.ne_nil_of_mem hf
    have hstr : (⟨⟨1, true⟩, vn.str, Join (w :: ws) " "⟩ : mad).String (.ok rows) =
        Replace (Join (w :: ws) " ") (token vf.str) vv.str := by
      rw [mad_String_ok _ rows hne, hrows]
      rfl
    unfold Message getMadlib
    simp only [ho3.1, ho3.2, h3, List.find?_cons, beq_self_eq_true, Option.map_some',
      MadRow.scan, if_true]
    rw [← hstr]
    rfl

/-- Witness of C1: the scenario of the claim. -/
theorem c1_create_add_render_witness :
    (∃ reply, Message (Oracle.ok []) DB.empty ⟨"madlib create foo Hello {name}!", "#a", true⟩ =
      .done ⟨true, [("#a", reply)],
        ⟨[⟨1, .text "foo", .text (Join ("hello" :: ["{name}!"]) " ")⟩], []⟩⟩) ∧
    Message (Oracle.ok []) ⟨[⟨1, .text "foo", .text (Join ("hello" :: ["{name}!"]) " ")⟩], []⟩
        ⟨"madlib add name World", "#b", true⟩ =
      .done ⟨true, [("#b", "Added.")],
        ⟨[⟨1, .text "foo", .text (Join ("hello" :: ["{name}!"]) " ")⟩],
          [⟨1, .text "name", .text "world"⟩]⟩⟩ ∧
    Message (Oracle.ok [⟨1, .text "name", .text "world"⟩])
        ⟨[⟨1, .text "foo", .text (Join ("hello" :: ["{name}!"]) " ")⟩],
          [⟨1, .text "name", .text "world"⟩]⟩ ⟨"foo", "#c", false⟩ =
      .done ⟨true, [("#c", Replace (Join ("hello" :: ["{name}!"]) " ")
          (token (SqlValue.text "name").str) (SqlValue.text "world").str)],
        ⟨[⟨1, .text "foo", .text (Join ("hello" :: ["{name}!"]) " ")⟩],
          [⟨1, .text "name", .text "world"⟩]⟩⟩ :=
  c1_create_add_render (Oracle.ok []) (Oracle.ok []) (Oracle.ok [⟨1, .text "name", .text "world"⟩])
    "madlib create foo Hello {name}!" "madlib add name World" "foo" "#a" "#b" "#c" false
    "foo" "name" "hello" "world" ["{name}!"] [] [⟨1, .text "name", .text "world"⟩]
    (.text "foo") (.text "name") (.text "world")
    (by decide) (by decide) (by decide) (by decide) (by decide) (by decide) (by decide)
    (by decide) (by decide) ⟨rfl, rfl, rfl⟩ ⟨rfl, rfl⟩ ⟨rfl, rfl⟩ (by decide)

/-- C10, counterexample. The format is the token of `a` inside one more pair of braces,
then the token of `a`, then the token of `b`, separated by spaces. The rows give `a`
the value `b` and `b` the value `w`: names and values are brace-free and the rows are a
sample for the format. The loop gives `w b w` in the order `a`, `b`, and the token of
`b` followed by ` b w` in the order `b`, `a`. -/
theorem c10_order_matters_on_nested_braces :
    IsSample [⟨1, .text "a", .text "b"⟩, ⟨2, .text "b", .text "w"⟩]
      (placeholders "\x7b\x7ba\x7d\x7d \x7ba\x7d \x7bb\x7d")
      [⟨1, .text "a", .text "b"⟩, ⟨2, .text "b", .text "w"⟩] ∧
    [(⟨1, .text "a", .text "b"⟩ : FieldRow), ⟨2, .text "b", .text "w"⟩].map FieldRow.scan =
      [⟨⟨1, true⟩, "a", "b"⟩, ⟨⟨2, true⟩, "b", "w"⟩] ∧
    List.Perm [(⟨⟨1, true⟩, "a", "b"⟩ : field), ⟨⟨2, true⟩, "b", "w"⟩]
      [⟨⟨2, true⟩, "b", "w"⟩, ⟨⟨1, true⟩, "a", "b"⟩] ∧
    (∀ r ∈ [(⟨⟨1, true⟩, "a", "b"⟩ : field), ⟨⟨2, true⟩, "b", "w"⟩],
      (∀ c ∈ r.Field.data, isBrace c = false) ∧ (∀ c ∈ r.Value.data, isBrace c = false)) ∧
    substitute [⟨⟨1, true⟩, "a", "b"⟩, ⟨⟨2, true⟩, "b", "w"⟩]
      "\x7b\x7ba\x7d\x7d \x7ba\x7d \x7bb\x7d" = "w b w" ∧
    substitute [⟨⟨2, true⟩, "b", "w"⟩, ⟨⟨1, true⟩, "a", "b"⟩]
      "\x7b\x7ba\x7d\x7d \x7ba\x7d \x7bb\x7d" = "\x7bb\x7d b w" ∧
    simultaneous [⟨⟨1, true⟩, "a", "b"⟩, ⟨⟨2, true⟩, "b", "w"⟩]
      "\x7b\x7ba\x7d\x7d \x7ba\x7d \x7bb\x7d" = "\x7bb\x7d b w" := by
  decide

/-- C10, amended. For a format without nested braces (the next brace after an opening
brace, if there is one, is a closing brace) and rows with one value per distinct field
whose names and values contain no brace, the substitution loop of `mad.String` gives
the same string for every permutation of the rows, and that string is the simultaneous
replacement of the token of each row by its value. -/
theorem c10_order_independent (format : String) (rows rows2 : List field)
    (hnest : noNest format.data = true)
    (hnd : (rows.map (fun r => r.Field)).Nodup)
    (hfree : ∀ r ∈ rows, (∀ c ∈ r.Field.data, isBrace c = false) ∧
      (∀ c ∈ r.Value.data, isBrace c = false))
    (hperm : rows.Perm rows2) :
    substitute rows2 format = substitute rows format ∧
      substitute rows format = simultaneous rows format := by
  have h1 := substitute_eq_simultaneous format hnest rows hfree
  have h2 := substitute_eq_simultaneous format hnest rows2
    (fun r hr => hfree r (hperm.mem_iff.mpr hr))
  refine ⟨?_, h1⟩
  rw [h1, h2]
  apply String.ext
  exact (simulGo_perm rows rows2 hperm hnd
    (fun r hr hx => ((isBrace_false_iff _).mp ((hfree r hr).1 _ hx)).2 rfl) _ 0).symm

/-- Witness of C10: the format `{a} and {b}` with the rows in both orders. -/
theorem c10_order_independent_witness :
    substitute [⟨⟨2, true⟩, "b", "y"⟩, ⟨⟨1, true⟩, "a", "x"⟩] "{a} and {b}" =
        substitute [⟨⟨1, true⟩, "a", "x"⟩, ⟨⟨2, true⟩, "b", "y"⟩] "{a} and {b}" ∧
      substitute [⟨⟨1, true⟩, "a", "x"⟩, ⟨⟨2, true⟩, "b", "y"⟩] "{a} and {b}" =
        simultaneous [⟨⟨1, true⟩, "a", "x"⟩, ⟨⟨2, true⟩, "b", "y"⟩] "{a} and {b}" :=
  c10_order_independent "{a} and {b}" [⟨⟨1, true⟩, "a", "x"⟩, ⟨⟨2, true⟩, "b", "y"⟩]
    [⟨⟨2, true⟩, "b", "y"⟩, ⟨⟨1, true⟩, "a", "x"⟩] (by decide) (by decide) (by decide)
    (by decide)

end Madlib
